import Mathlib

/-!
Verification of the `zbxsend` protocol client (`src/zbxsend.py`).

The embedding works over `List Char` for Python `str` values and `List Nat`
for byte strings.  Wall-clock time (`time.time_ns()`) is passed in as an
explicit `now_ns : Nat` parameter, and the network is an explicit oracle
(`Net`) listing the outcome of each socket operation; the model function
`send_to_zabbix` threads the oracle and records a trace of events
(socket calls and log calls) so that resource and logging claims can be
stated.
-/

namespace Zbxsend

/-! ### Characters and decimal / hexadecimal digits -/

def digitChar (k : Nat) : Char := Char.ofNat (48 + k)

def hexDigitCh (k : Nat) : Char :=
  if k < 10 then Char.ofNat (48 + k) else Char.ofNat (87 + k)

def hexVal (c : Char) : Option Nat :=
  if 48 ≤ c.toNat ∧ c.toNat ≤ 57 then some (c.toNat - 48)
  else if 97 ≤ c.toNat ∧ c.toNat ≤ 102 then some (c.toNat - 87)
  else if 65 ≤ c.toNat ∧ c.toNat ≤ 70 then some (c.toNat - 55)
  else none

/-- Decimal digits of `n`, most significant first, accumulator style
(the digits of Python's `repr` of a nonnegative int).  The `fuel`
argument only serves structural recursion; any `fuel > n` is enough. -/
def natDigitsCore : Nat → Nat → List Char → List Char
  | 0, _, acc => acc
  | fuel + 1, n, acc =>
    if n < 10 then digitChar n :: acc
    else natDigitsCore fuel (n / 10) (digitChar (n % 10) :: acc)

def natDigits (n : Nat) : List Char := natDigitsCore (n + 1) n []

/-- Python `repr` of an int: optional minus sign then decimal digits. -/
def intChars (n : Int) : List Char :=
  if n < 0 then '-' :: natDigits n.natAbs else natDigits n.natAbs

/-! ### JSON values and the compact serializer of `json.dumps` -/

def lbrace : Char := Char.ofNat 123
def rbrace : Char := Char.ofNat 125

inductive JValue where
  | jnull : JValue
  | jint (n : Int) : JValue
  | jstr (s : List Char) : JValue
  | jarr (xs : List JValue) : JValue
  | jobj (fields : List (List Char × JValue)) : JValue

/-- The escaping `json.dumps(..., ensure_ascii=False)` applies to one
character of a string: `"` and `\` get a backslash, control characters
below 0x20 use the short escapes or `\u00xx`, and everything else passes
through unchanged. -/
def escChar (c : Char) : List Char :=
  if c = '"' then ['\\', '"']
  else if c = '\\' then ['\\', '\\']
  else if c.toNat < 32 then
    if c.toNat = 8 then ['\\', 'b']
    else if c.toNat = 9 then ['\\', 't']
    else if c.toNat = 10 then ['\\', 'n']
    else if c.toNat = 12 then ['\\', 'f']
    else if c.toNat = 13 then ['\\', 'r']
    else ['\\', 'u', '0', '0', hexDigitCh (c.toNat / 16), hexDigitCh (c.toNat % 16)]
  else [c]

def escList (s : List Char) : List Char := s.flatMap escChar

/-- `json.dumps` of a string: quotes around the escaped content. -/
def strLit (s : List Char) : List Char := '"' :: escList s ++ ['"']

mutual

/-- `json.dumps(v, ensure_ascii=False, separators=(",", ":"))`:
compact serialization, no whitespace inserted between tokens. -/
def serialize : JValue → List Char
  | .jnull => ('n' :: 'u' :: 'l' :: 'l' :: [])
  | .jint n => intChars n
  | .jstr s => strLit s
  | .jarr xs => '[' :: serializeElems xs ++ [']']
  | .jobj fs => lbrace :: serializeMembers fs ++ [rbrace]

def serializeElems : List JValue → List Char
  | [] => []
  | [x] => serialize x
  | x :: y :: xs => serialize x ++ ',' :: serializeElems (y :: xs)

def serializeMembers : List (List Char × JValue) → List Char
  | [] => []
  | [(k, v)] => strLit k ++ ':' :: serialize v
  | (k, v) :: m :: ms => strLit k ++ ':' :: serialize v ++ ',' :: serializeMembers (m :: ms)

end

/-! ### UTF-8 encoding (`str.encode()`) and byte helpers -/

def utf8Bytes (c : Char) : List Nat :=
  let n := c.toNat
  if n < 128 then [n]
  else if n < 2048 then [192 + n / 64, 128 + n % 64]
  else if n < 65536 then [224 + n / 4096, 128 + n / 64 % 64, 128 + n % 64]
  else [240 + n / 262144, 128 + n / 4096 % 64, 128 + n / 64 % 64, 128 + n % 64]

def utf8Encode (s : List Char) : List Nat := s.flatMap utf8Bytes

def isValidCharNat (n : Nat) : Prop := n < 55296 ∨ (57344 ≤ n ∧ n < 1114112)

instance (n : Nat) : Decidable (isValidCharNat n) := by
  unfold isValidCharNat; infer_instance

/-- Strict UTF-8 decoding (`bytes.decode()`), rejecting malformed input. -/
def utf8Decode : List Nat → Option (List Char)
  | [] => some []
  | b :: rest =>
    if b < 128 then
      (utf8Decode rest).map (fun s => Char.ofNat b :: s)
    else if 194 ≤ b ∧ b < 224 then
      match rest with
      | b2 :: rest2 =>
        if 128 ≤ b2 ∧ b2 < 192 then
          (utf8Decode rest2).map (fun s => Char.ofNat ((b - 192) * 64 + (b2 - 128)) :: s)
        else none
      | [] => none
    else if 224 ≤ b ∧ b < 240 then
      match rest with
      | b2 :: b3 :: rest3 =>
        if 128 ≤ b2 ∧ b2 < 192 ∧ 128 ≤ b3 ∧ b3 < 192 then
          let n := (b - 224) * 4096 + (b2 - 128) * 64 + (b3 - 128)
          if isValidCharNat n ∧ 2048 ≤ n then
            (utf8Decode rest3).map (fun s => Char.ofNat n :: s)
          else none
        else none
      | _ => none
    else if 240 ≤ b ∧ b < 245 then
      match rest with
      | b2 :: b3 :: b4 :: rest4 =>
        if 128 ≤ b2 ∧ b2 < 192 ∧ 128 ≤ b3 ∧ b3 < 192 ∧ 128 ≤ b4 ∧ b4 < 192 then
          let n := (b - 240) * 262144 + (b2 - 128) * 4096 + (b3 - 128) * 64 + (b4 - 128)
          if isValidCharNat n ∧ 65536 ≤ n then
            (utf8Decode rest4).map (fun s => Char.ofNat n :: s)
          else none
        else none
      | _ => none
    else none

/-- `struct.pack('<Q', n)`: eight little-endian bytes. -/
def pack64 (n : Nat) : List Nat :=
  [n % 256, n / 256 % 256, n / 65536 % 256, n / 16777216 % 256,
   n / 4294967296 % 256, n / 1099511627776 % 256,
   n / 281474976710656 % 256, n / 72057594037927936 % 256]

/-- `struct.unpack('<Q', bs)[0]` on a little-endian byte list. -/
def le64 : List Nat → Nat
  | [] => 0
  | b :: rest => b + 256 * le64 rest

/-- The 5-byte protocol tag `b'ZBXD\1'`. -/
def zbxd5 : List Nat := [90, 66, 88, 68, 1]

/-! ### The data model: `Metric` -/

/-- A metric value, `Union[str, int, float]` in the source; floating-point
values are outside the embedding. -/
inductive MValue where
  | mstr (s : List Char) : MValue
  | mint (n : Int) : MValue
deriving DecidableEq

/-- Python `str(value)`. -/
def MValue.str : MValue → List Char
  | .mstr s => s
  | .mint n => intChars n

/-- The `Metric` class of the source: `host`, `key`, `value`, optional
`clock` and `ns`. -/
structure Metric where
  host : List Char
  key : List Char
  value : MValue
  clock : Option Int := none
  ns : Option Int := none
deriving DecidableEq

/-! ### Building the request payload (`send_to_zabbix`, lines 37-61) -/

/-- The effective `(clock, ns)` pair for one metric: `if not m.clock`
(i.e. `clock` is `None` or `0`) both are derived from `time.time_ns()`,
otherwise both are taken from the metric as supplied. -/
def resolveClock (now_ns : Nat) (m : Metric) : Int × Option Int :=
  match m.clock with
  | none => ((now_ns / 1000000000 : Nat), some ((now_ns % 1000000000 : Nat) : Int))
  | some c =>
    if c = 0 then ((now_ns / 1000000000 : Nat), some ((now_ns % 1000000000 : Nat) : Int))
    else (c, m.ns)

/-- A Python `None` in a JSON payload serializes as `null`. -/
def optIntJson : Option Int → JValue
  | none => .jnull
  | some v => .jint v

/-- The dict appended to `metrics_data` for one metric (insertion order
`host`, `key`, `value`, `clock`, `ns`). -/
def metricEntry (now_ns : Nat) (m : Metric) : JValue :=
  .jobj [(("host").data, .jstr m.host),
         (("key").data, .jstr m.key),
         (("value").data, .jstr m.value.str),
         (("clock").data, .jint (resolveClock now_ns m).1),
         (("ns").data, optIntJson (resolveClock now_ns m).2)]

/-- The `for m in metrics` loop building `metrics_data`.  The metric list
is threaded through explicitly as mutable state and handed back, so that
the frame property (the loop only reads the metrics) is expressible. -/
def buildEntries (now_ns : Nat) : List Metric → List JValue × List Metric
  | [] => ([], [])
  | m :: ms =>
    let entry := metricEntry now_ns m
    let rest := buildEntries now_ns ms
    (entry :: rest.1, m :: rest.2)

/-- The top-level request object
`{"request": "sender data", "data": metrics_data}`. -/
def senderObj (now_ns : Nat) (metrics : List Metric) : JValue :=
  .jobj [(("request").data, .jstr ("sender data").data),
         (("data").data, .jarr (buildEntries now_ns metrics).1)]

/-- `json_data`: the compact JSON text of the request (a Python `str`,
i.e. a sequence of code points). -/
def jsonData (now_ns : Nat) (metrics : List Metric) : List Char :=
  serialize (senderObj now_ns metrics)

/-- `packet = b'ZBXD\1' + struct.pack('<Q', len(json_data)) + json_data.encode()`.
Note the length packed is `len(json_data)`, the number of characters of the
JSON text, not the number of bytes of its UTF-8 encoding. -/
def packetFor (now_ns : Nat) (metrics : List Metric) : List Nat :=
  zbxd5 ++ pack64 (jsonData now_ns metrics).length ++ utf8Encode (jsonData now_ns metrics)

/-! ### A reference JSON parser (also the model of `json.loads` on the
compact JSON the protocol exchanges) -/

/-- Parse the body of a JSON string literal after the opening quote,
decoding escapes; raw control characters are rejected (strict mode). -/
def parseStrBody : List Char → Option (List Char × List Char)
  | [] => none
  | c :: r =>
    if c = '"' then some ([], r)
    else if c = '\\' then
      match r with
      | [] => none
      | e :: r2 =>
        if e = '"' ∨ e = '\\' ∨ e = '/' then
          (parseStrBody r2).map (fun p => (e :: p.1, p.2))
        else if e = 'b' then (parseStrBody r2).map (fun p => (Char.ofNat 8 :: p.1, p.2))
        else if e = 't' then (parseStrBody r2).map (fun p => ('\t' :: p.1, p.2))
        else if e = 'n' then (parseStrBody r2).map (fun p => ('\n' :: p.1, p.2))
        else if e = 'f' then (parseStrBody r2).map (fun p => (Char.ofNat 12 :: p.1, p.2))
        else if e = 'r' then (parseStrBody r2).map (fun p => (Char.ofNat 13 :: p.1, p.2))
        else if e = 'u' then
          match r2 with
          | h1 :: h2 :: h3 :: h4 :: r3 =>
            match hexVal h1, hexVal h2, hexVal h3, hexVal h4 with
            | some v1, some v2, some v3, some v4 =>
              let n := ((v1 * 16 + v2) * 16 + v3) * 16 + v4
              if isValidCharNat n then
                (parseStrBody r3).map (fun p => (Char.ofNat n :: p.1, p.2))
              else none
            | _, _, _, _ => none
          | _ => none
        else none
    else if c.toNat < 32 then none
    else (parseStrBody r).map (fun p => (c :: p.1, p.2))

/-- Parse a nonempty run of decimal digits into a natural number. -/
def parseNatChars (s : List Char) : Option (Nat × List Char) :=
  let ds := s.takeWhile Char.isDigit
  if ds.isEmpty then none
  else some (ds.foldl (fun a c => a * 10 + (c.toNat - 48)) 0, s.dropWhile Char.isDigit)

mutual

/-- Recursive-descent parser for a compact JSON value (`null`, integer,
string, array, object).  `fuel` bounds the recursion depth. -/
def parseValue : Nat → List Char → Option (JValue × List Char)
  | 0, _ => none
  | fuel + 1, s =>
    if ("null").data.isPrefixOf s then some (.jnull, s.drop 4)
    else
      match s with
      | [] => none
      | c :: r =>
        if c = '"' then
          (parseStrBody r).map (fun p => (.jstr p.1, p.2))
        else if c = lbrace then
          match r with
          | [] => none
          | c2 :: r2 =>
            if c2 = rbrace then some (.jobj [], r2)
            else (parseMembers fuel r).map (fun p => (.jobj p.1, p.2))
        else if c = '[' then
          match r with
          | [] => none
          | c2 :: _ =>
            if c2 = ']' then some (.jarr [], r.drop 1)
            else (parseElems fuel r).map (fun p => (.jarr p.1, p.2))
        else if c = '-' then
          (parseNatChars r).map (fun p => (.jint (-(p.1 : Int)), p.2))
        else
          (parseNatChars s).map (fun p => (.jint (p.1 : Int), p.2))

/-- Parse the members of a JSON object after the opening brace (at least
one member; the empty object is handled in `parseValue`). -/
def parseMembers : Nat → List Char → Option (List (List Char × JValue) × List Char)
  | 0, _ => none
  | fuel + 1, s =>
    match s with
    | [] => none
    | c :: r =>
      if c = '"' then
        match parseStrBody r with
        | none => none
        | some (key, rest) =>
          match rest with
          | [] => none
          | c2 :: r2 =>
            if c2 = ':' then
              match parseValue fuel r2 with
              | none => none
              | some (v, rest2) =>
                match rest2 with
                | [] => none
                | c3 :: r3 =>
                  if c3 = ',' then
                    (parseMembers fuel r3).map (fun p => ((key, v) :: p.1, p.2))
                  else if c3 = rbrace then some ([(key, v)], r3)
                  else none
            else none
      else none

/-- Parse the elements of a JSON array after the opening bracket (at least
one element; the empty array is handled in `parseValue`). -/
def parseElems : Nat → List Char → Option (List JValue × List Char)
  | 0, _ => none
  | fuel + 1, s =>
    match parseValue fuel s with
    | none => none
    | some (v, rest) =>
      match rest with
      | [] => none
      | c :: r =>
        if c = ',' then (parseElems fuel r).map (fun p => (v :: p.1, p.2))
        else if c = ']' then some ([v], r)
        else none

end

/-- `json.loads` on a compact JSON text: parse one value consuming the
whole input. -/
def parseJson (s : List Char) : Option JValue :=
  match parseValue (s.length + 1) s with
  | some (v, []) => some v
  | _ => none

/-- Looking a key up in a parsed JSON object with Python `dict` semantics:
a repeated key keeps its last occurrence (`resp.get(k)`). -/
def lookupLast (fs : List (List Char × JValue)) (k : List Char) : Option JValue :=
  match fs with
  | [] => none
  | (k', v) :: rest =>
    match lookupLast rest k with
    | some r => some r
    | none => if k' = k then some v else none

/-! ### The socket model

Each socket operation either succeeds, raises `socket.timeout`, or raises
some other exception; the network is an oracle fixing these outcomes in
advance.  The model records a trace of socket calls (each tagged with the
socket timeout in effect when it runs) and of logging calls, so that
resource-release, timeout-scope and diagnostic claims are expressible. -/

inductive NetResult (α : Type) where
  | ok (a : α) : NetResult α
  | tmo : NetResult α
  | err : NetResult α
deriving DecidableEq

/-- The outcome the environment has in store for each socket operation of
one `send_to_zabbix` call.  `recvs` lists the successive results of
`recv` calls; an `ok` chunk longer than the requested size is truncated
by the model, as a real `recv` never returns more than asked. -/
structure Net where
  sockOk : Bool
  connectRes : NetResult Unit
  sendRes : NetResult Unit
  recvs : List (NetResult (List Nat))

inductive Ev where
  | socketCreated : Ev
  | connectCall (timeoutInEffect : Option Int) : Ev
  | setTimeoutCall (t : Int) : Ev
  | sendCall (timeoutInEffect : Option Int) : Ev
  | recvCall (n : Nat) (timeoutInEffect : Option Int) : Ev
  | closeCall : Ev
  | logDebugResp : Ev
  | logInfoField : Ev
  | logErrorWrongResp : Ev
  | logErrorZbx : Ev
  | logErrorTimeout : Ev
  | logException : Ev
deriving DecidableEq

/-- `_recv_all(sock, count)`: loop reading `count - len(buf)` bytes until
`count` bytes are accumulated or a `recv` returns the empty chunk
(connection closed).  Returns the result, the unconsumed remainder of the
oracle, and the trace of `recv` calls.  A `recv` on an exhausted oracle is
an error outcome. -/
def recv_all_go (stream : List (NetResult (List Nat))) (count : Nat)
    (buf : List Nat) (tmo : Option Int) :
    NetResult (List Nat) × List (NetResult (List Nat)) × List Ev :=
  if count ≤ buf.length then (.ok buf, stream, [])
  else
    match stream with
    | [] => (.err, [], [.recvCall (count - buf.length) tmo])
    | r :: rest =>
      let ev := Ev.recvCall (count - buf.length) tmo
      match r with
      | .ok chunk =>
        let chunk := chunk.take (count - buf.length)
        if chunk.isEmpty then (.ok buf, rest, [ev])
        else
          let out := recv_all_go rest count (buf ++ chunk) tmo
          (out.1, out.2.1, ev :: out.2.2)
      | .tmo => (.tmo, rest, [ev])
      | .err => (.err, rest, [ev])

/-- What one call of the model returns: the Python-level outcome (`.ok b`
for `return b`, `.error ()` for an exception propagating to the caller),
the trace of socket and logging calls, and the metric-list state handed
back (for the frame property). -/
structure SendOut where
  result : Except Unit Bool
  events : List Ev
  metricsOut : List Metric

/-- Shallow embedding of `send_to_zabbix(metrics, zabbix_host, zabbix_port,
timeout)`.  Mirrors the source line by line:

* the payload, `json_data` and `packet` are built before the `try` block;
* `socket.socket()` runs inside the `try`: if it raises, `except Exception`
  logs and wants to `return False`, but the `finally` block then evaluates
  `zabbix.close()` with `zabbix` unbound, so an `UnboundLocalError`
  propagates to the caller (`.error ()`) and nothing is closed;
* `connect` runs before `settimeout`, so it executes with the socket's
  default timeout (`none`); `sendall` and every `recv` run with the
  configured timeout set;
* a 13-byte header is read with `_recv_all`, validated against the tag,
  then the announced body length is read with a single `recv`, decoded as
  UTF-8, parsed as JSON, and the `response` field is compared to
  `"success"`;
* `socket.timeout` maps to the timeout log + `return False`, any other
  exception to the generic log + `return False`, and every `return` inside
  the `try` passes through `finally: zabbix.close()`. -/
def send_to_zabbix (metrics : List Metric) (now_ns : Nat) (net : Net)
    (timeout : Int := 15) : SendOut :=
  let built := buildEntries now_ns metrics
  let json_data := jsonData now_ns metrics
  let _packet := zbxd5 ++ pack64 json_data.length ++ utf8Encode json_data
  if net.sockOk then
    let evs := [Ev.socketCreated, Ev.connectCall none]
    match net.connectRes with
    | .tmo => ⟨.ok false, evs ++ [.logErrorTimeout, .closeCall], built.2⟩
    | .err => ⟨.ok false, evs ++ [.logException, .closeCall], built.2⟩
    | .ok _ =>
      let evs := evs ++ [Ev.setTimeoutCall timeout, Ev.sendCall (some timeout)]
      match net.sendRes with
      | .tmo => ⟨.ok false, evs ++ [.logErrorTimeout, .closeCall], built.2⟩
      | .err => ⟨.ok false, evs ++ [.logException, .closeCall], built.2⟩
      | .ok _ =>
        let hdrOut := recv_all_go net.recvs 13 [] (some timeout)
        let evs := evs ++ hdrOut.2.2
        match hdrOut.1 with
        | .tmo => ⟨.ok false, evs ++ [.logErrorTimeout, .closeCall], built.2⟩
        | .err => ⟨.ok false, evs ++ [.logException, .closeCall], built.2⟩
        | .ok resp_hdr =>
          if ¬ zbxd5.isPrefixOf resp_hdr ∨ resp_hdr.length ≠ 13 then
            ⟨.ok false, evs ++ [.logErrorWrongResp, .closeCall], built.2⟩
          else
            let resp_body_len := le64 (resp_hdr.drop 5)
            let evs := evs ++ [Ev.recvCall resp_body_len (some timeout)]
            match hdrOut.2.1 with
            | [] => ⟨.ok false, evs ++ [.logException, .closeCall], built.2⟩
            | .tmo :: _ => ⟨.ok false, evs ++ [.logErrorTimeout, .closeCall], built.2⟩
            | .err :: _ => ⟨.ok false, evs ++ [.logException, .closeCall], built.2⟩
            | .ok chunk :: _ =>
              let resp_body := chunk.take resp_body_len
              match (utf8Decode resp_body).bind parseJson with
              | none => ⟨.ok false, evs ++ [.logException, .closeCall], built.2⟩
              | some resp =>
                let evs := evs ++ [Ev.logDebugResp]
                match resp with
                | .jobj fields =>
                  let evs := evs ++ [Ev.logInfoField]
                  match lookupLast fields (("response").data) with
                  | some (.jstr s) =>
                    if s = ("success").data then ⟨.ok true, evs ++ [.closeCall], built.2⟩
                    else ⟨.ok false, evs ++ [.logErrorZbx, .closeCall], built.2⟩
                  | _ => ⟨.ok false, evs ++ [.logErrorZbx, .closeCall], built.2⟩
                | _ => ⟨.ok false, evs ++ [.logException, .closeCall], built.2⟩
  else
    ⟨.error (), [.logException], built.2⟩

/-! ### The success contract, stated from the specification

`specReportsSuccess` transcribes the spec's processing contract (steps
1-9 of §4.1): the call succeeds exactly when the connection is obtained,
the full packet is written, a valid 13-byte header arrives (read with the
accumulating loop), the announced body is obtained by a single read and
parses as a JSON object whose `response` field is `"success"`. -/
def specReportsSuccess (net : Net) (tm : Int) : Bool :=
  match net.sockOk, net.connectRes, net.sendRes with
  | true, .ok _, .ok _ =>
    match recv_all_go net.recvs 13 [] (some tm) with
    | (.ok hdr, rest, _) =>
      if zbxd5.isPrefixOf hdr ∧ hdr.length = 13 then
        match rest with
        | .ok chunk :: _ =>
          match (utf8Decode (chunk.take (le64 (hdr.drop 5)))).bind parseJson with
          | some (.jobj fields) =>
            match lookupLast fields (("response").data) with
            | some (.jstr s) => decide (s = ("success").data)
            | _ => false
          | _ => false
        | _ => false
      else false
    | _ => false
  | _, _, _ => false

/-! ### Concrete scenarios used by witnesses and counterexamples -/

/-- A metric with a non-ASCII host name and a caller-supplied timestamp. -/
def mUni : Metric := ⟨['h', Char.ofNat 233], ("k").data, .mint 1, some 1, some 2⟩

/-- A metric supplying a non-zero `clock` but no `ns`. -/
def mMixed : Metric := ⟨("h").data, ("k").data, .mstr ("v").data, some 5, none⟩

/-- A metric supplying both `clock` and `ns`. -/
def mSupplied : Metric := ⟨("h").data, ("k").data, .mint 7, some 7, some 3⟩

/-- A metric with `clock = 0` and a supplied `ns`. -/
def mZeroClock : Metric := ⟨("h").data, ("k").data, .mint 7, some 0, some 9⟩

/-- A well-formed success response body. -/
def respSuccessBody : List Nat :=
  utf8Encode (serialize (.jobj [(("response").data, .jstr ("success").data),
                                (("info").data, .jstr ("ok").data)]))

/-- An environment in which the whole exchange succeeds. -/
def netGood : Net :=
  ⟨true, .ok (), .ok (), [.ok (zbxd5 ++ pack64 respSuccessBody.length), .ok respSuccessBody]⟩

/-- An environment in which `socket.socket()` itself raises. -/
def netNoSock : Net := ⟨false, .ok (), .ok (), []⟩

/-- An environment whose peer sends two header bytes and closes. -/
def netShortHdr : Net := ⟨true, .ok (), .ok (), [.ok [90, 66], .ok []]⟩

/-- An environment in which `sendall` times out. -/
def netSendTmo : Net := ⟨true, .ok (), .tmo, []⟩

/-- Which timeout governs each socket operation: `connect` runs with the
socket default (`none`); `send` and every `recv` run with the configured
timeout already set. -/
def evTimeoutOk (tm : Int) : Ev → Prop
  | .connectCall o => o = none
  | .sendCall o => o = some tm
  | .recvCall _ o => o = some tm
  | _ => True

def isRecvEv : Ev → Bool
  | .recvCall _ _ => true
  | _ => false

/-- The number of `recv` calls in a trace. -/
def countRecv (evs : List Ev) : Nat := (evs.filter isRecvEv).length

/-- The valid response header announcing `respSuccessBody`. -/
def hdrGood : List Nat := zbxd5 ++ pack64 respSuccessBody.length

/-- An environment in which the header `recv` times out. -/
def netHdrTmo : Net := ⟨true, .ok (), .ok (), [.tmo]⟩

/-- An environment delivering a valid header whose body `recv` times out. -/
def netBodyTmo : Net := ⟨true, .ok (), .ok (), [.ok hdrGood, .tmo]⟩

/-- An environment delivering the header in two partial chunks. -/
def netSplitHdr : Net :=
  ⟨true, .ok (), .ok (), [.ok (hdrGood.take 2), .ok (hdrGood.drop 2), .ok respSuccessBody]⟩

def digitsVal (ds : List Char) : Nat := ds.foldl (fun a c => a * 10 + (c.toNat - 48)) 0

/-- The following character (if any) is not a decimal digit, so a greedy
number parse stops exactly at the boundary. -/
def headNotDigit : List Char → Prop
  | [] => True
  | c :: _ => c.isDigit = false

/-- `v` parses back from its serialization with any fuel of at least
`need`, leaving any remainder that does not begin with a digit intact. -/
def ParsesFrom (v : JValue) (need : Nat) : Prop :=
  ∀ fuel rest, need ≤ fuel → headNotDigit rest →
    parseValue fuel (serialize v ++ rest) = some (v, rest)

/-- The whitespace a metric contributes to the body: the literal spaces of
its host, key and stringified value. -/
def wsOf (m : Metric) : Nat :=
  m.host.count ' ' + m.key.count ' ' + m.value.str.count ' '

/-! ### Claim theorems -/

/-- C1, counterexample evaluation: on a metric whose host contains `é`,
the length field of the packet (bytes 5..13, little-endian) equals the
character count of the JSON text (87) and not the byte length of its
UTF-8 encoding (88): the code packs `len(json_data)` before encoding. -/
theorem C1_length_field_counts_chars_not_bytes :
    le64 (((packetFor 0 [mUni]).drop 5).take 8) = (jsonData 0 [mUni]).length ∧
    (jsonData 0 [mUni]).length = 87 ∧
    (utf8Encode (jsonData 0 [mUni])).length = 88 ∧
    le64 (((packetFor 0 [mUni]).drop 5).take 8) ≠ (utf8Encode (jsonData 0 [mUni])).length := by
  refine ⟨rfl, by decide, by decide, by decide⟩

/-- C3, failing input: when `socket.socket()` raises, the `except` block
catches the exception, but `finally: zabbix.close()` then evaluates the
unbound local `zabbix`, so an `UnboundLocalError` propagates to the caller
(result `.error ()`) and no close happens — contradicting both halves of
the claim. -/
theorem C3_socket_creation_fault_propagates :
    (send_to_zabbix [] 0 netNoSock 15).result = .error () ∧
    Ev.closeCall ∉ (send_to_zabbix [] 0 netNoSock 15).events := by
  exact ⟨rfl, by decide⟩

/-- C4, counterexample: a metric with `clock = 5` and `ns = None`
serializes the caller's `clock` together with a `null` `ns` — a mix of a
caller-supplied value with a missing one, which is neither the generated
pair nor a fully caller-supplied pair. -/
theorem C4_mixed_pair_cex :
    resolveClock 123456789 mMixed = (5, none) ∧
    mMixed.clock = some 5 ∧ mMixed.ns = none ∧
    metricEntry 123456789 mMixed =
      .jobj [(("host").data, .jstr (("h").data)),
             (("key").data, .jstr (("k").data)),
             (("value").data, .jstr (("v").data)),
             (("clock").data, .jint 5),
             (("ns").data, .jnull)] ∧
    resolveClock 123456789 mMixed ≠
      (((123456789 / 1000000000 : Nat) : Int), some ((123456789 % 1000000000 : Nat) : Int)) := by
  refine ⟨rfl, rfl, rfl, rfl, by decide⟩

/-- C4, amended: the serialized pair is either entirely client-generated
(when `clock` is absent or zero) or taken verbatim from the caller — where
a caller-supplied non-zero `clock` with an omitted `ns` yields the
caller's `clock` together with a `null` `ns`. -/
theorem C4_amended_pair_resolution (m : Metric) (now_ns : Nat) :
    resolveClock now_ns m =
      (((now_ns / 1000000000 : Nat) : Int), some ((now_ns % 1000000000 : Nat) : Int)) ∨
    (∃ c, m.clock = some c ∧ resolveClock now_ns m = (c, m.ns)) := by
  rcases h : m.clock with _ | c
  · left; simp [resolveClock, h]
  · by_cases hc : c = 0
    · left; simp [resolveClock, h, hc]
    · right; exact ⟨c, rfl, by simp [resolveClock, h, hc]⟩

/-- C5: a caller-supplied non-zero `clock` is used verbatim together with
the caller's `ns`; an absent or zero `clock` makes both fields come from
`time.time_ns()`, with the generated nanosecond remainder in
`[0, 999999999]`; and the serialized entry embeds exactly this resolved
pair in its `clock` and `ns` fields. -/
theorem C5_clock_resolution (m : Metric) (now_ns : Nat) (c : Int) :
    (m.clock = some c → c ≠ 0 → resolveClock now_ns m = (c, m.ns)) ∧
    ((m.clock = none ∨ m.clock = some 0) →
      resolveClock now_ns m =
        (((now_ns / 1000000000 : Nat) : Int), some ((now_ns % 1000000000 : Nat) : Int)) ∧
      now_ns % 1000000000 ≤ 999999999) ∧
    metricEntry now_ns m =
      .jobj [(("host").data, .jstr m.host),
             (("key").data, .jstr m.key),
             (("value").data, .jstr m.value.str),
             (("clock").data, .jint (resolveClock now_ns m).1),
             (("ns").data, optIntJson (resolveClock now_ns m).2)] := by
  refine ⟨fun h hc => by simp [resolveClock, h, hc], fun h => ?_, rfl⟩
  have hm : now_ns % 1000000000 < 1000000000 := Nat.mod_lt _ (by omega)
  rcases h with h | h <;> exact ⟨by simp [resolveClock, h], by omega⟩

/-- C5, witness: at a metric with `clock = 7, ns = 3` the pair is used
verbatim, and at a metric with `clock = 0, ns = 9` both fields are
regenerated, the supplied `ns` being discarded. -/
theorem C5_clock_resolution_witness :
    resolveClock 55 mSupplied = (7, some 3) ∧
    (resolveClock 1500000005 mZeroClock = (1, some 500000005) ∧
      1500000005 % 1000000000 ≤ 999999999) := by
  exact ⟨(C5_clock_resolution mSupplied 55 7).1 rfl (by decide),
         (C5_clock_resolution mZeroClock 1500000005 0).2.1 (Or.inr rfl)⟩

/-- The payload-building loop hands the metric list back unchanged: it
only reads the metrics. -/
theorem buildEntries_frame (now_ns : Nat) (ms : List Metric) :
    (buildEntries now_ns ms).2 = ms := by
  induction ms with
  | nil => rfl
  | cons m ms ih => simp [buildEntries, ih]

/-- C10: `send_to_zabbix` never mutates its arguments — on every path the
metric-list state handed back equals the input list, and the building
loop reads but never writes the metrics. -/
theorem C10_no_mutation (metrics : List Metric) (now_ns : Nat) (net : Net) (tm : Int) :
    (send_to_zabbix metrics now_ns net tm).metricsOut = metrics ∧
    (buildEntries now_ns metrics).2 = metrics := by
  refine ⟨?_, buildEntries_frame now_ns metrics⟩
  simp only [send_to_zabbix]
  repeat' split
  all_goals simp [buildEntries_frame]

/-- C7: whenever the header read returns fewer than 13 bytes or bytes not
starting with the `ZBXD\1` tag, the call returns `False` (no exception),
logs the protocol mismatch, and performs no further receive — the trace
ends right after the mismatch log and the close. -/
theorem C7_header_mismatch_returns_false (metrics : List Metric) (now_ns : Nat)
    (net : Net) (tm : Int) (hdr : List Nat) (rest : List (NetResult (List Nat)))
    (evs : List Ev)
    (h1 : net.sockOk = true) (h2 : net.connectRes = .ok ())
    (h3 : net.sendRes = .ok ())
    (h4 : recv_all_go net.recvs 13 [] (some tm) = (.ok hdr, rest, evs))
    (h5 : hdr.length < 13 ∨ ¬ zbxd5.isPrefixOf hdr) :
    (send_to_zabbix metrics now_ns net tm).result = .ok false ∧
    (send_to_zabbix metrics now_ns net tm).events =
      [Ev.socketCreated, Ev.connectCall none, Ev.setTimeoutCall tm, Ev.sendCall (some tm)]
        ++ evs ++ [Ev.logErrorWrongResp, Ev.closeCall] := by
  have h5' : ¬ zbxd5.isPrefixOf hdr = true ∨ hdr.length ≠ 13 := by
    rcases h5 with h | h
    · right; omega
    · left; simp [h]
  simp only [send_to_zabbix, h1, h2, h3, h4]
  rw [if_pos trivial, if_pos h5']
  exact ⟨rfl, by simp⟩

/-- C7, witness: a peer that sends two bytes and closes triggers the
protocol-mismatch branch. -/
theorem C7_header_mismatch_witness :
    (send_to_zabbix [] 0 netShortHdr 15).result = .ok false ∧
    (send_to_zabbix [] 0 netShortHdr 15).events =
      [Ev.socketCreated, Ev.connectCall none, Ev.setTimeoutCall 15, Ev.sendCall (some 15)]
        ++ [Ev.recvCall 13 (some 15), Ev.recvCall 11 (some 15)]
        ++ [Ev.logErrorWrongResp, Ev.closeCall] := by
  exact C7_header_mismatch_returns_false [] 0 netShortHdr 15 [90, 66]
    [] [Ev.recvCall 13 (some 15), Ev.recvCall 11 (some 15)]
    rfl rfl rfl (by decide) (by decide)

/-- C8, counterexample: in a run in which the whole exchange succeeds,
`connect` executes with no timeout in effect (the socket default), because
`settimeout` is only called after `connect` returns — so the configured
timeout does not bound connection establishment. -/
theorem C8_connect_unbounded_cex :
    Ev.connectCall none ∈ (send_to_zabbix [] 0 netGood 15).events ∧
    Ev.connectCall (some 15) ∉ (send_to_zabbix [] 0 netGood 15).events ∧
    (send_to_zabbix [] 0 netGood 15).result = .ok true := by
  refine ⟨by decide, by decide, rfl⟩

/-- Every event `_recv_all` records is a `recv` call carrying the timeout
passed to it. -/
theorem recv_all_go_events (stream : List (NetResult (List Nat))) (count : Nat)
    (buf : List Nat) (t : Option Int) :
    ∀ e ∈ (recv_all_go stream count buf t).2.2, ∃ n, e = .recvCall n t := by
  induction stream generalizing buf with
  | nil =>
    intro e he
    unfold recv_all_go at he
    split at he
    · simp at he
    · simp at he; exact ⟨_, he⟩
  | cons r rest ih =>
    intro e he
    unfold recv_all_go at he
    split at he
    · simp at he
    · match r with
      | .ok chunk =>
        simp only at he
        split at he
        · simp at he; exact ⟨_, he⟩
        · simp only [List.mem_cons] at he
          rcases he with he | he
          · exact ⟨_, he⟩
          · exact ih _ e he
      | .tmo => simp at he; exact ⟨_, he⟩
      | .err => simp at he; exact ⟨_, he⟩

/-- In every trace of the model, `connect` carries no timeout while `send`
and `recv` carry the configured one. -/
theorem send_events_timeout_scope (metrics : List Metric) (now_ns : Nat)
    (net : Net) (tm : Int) :
    ∀ e ∈ (send_to_zabbix metrics now_ns net tm).events, evTimeoutOk tm e := by
  have hr := recv_all_go_events net.recvs 13 ([] : List Nat) (some tm)
  simp only [send_to_zabbix]
  repeat' split
  all_goals intro e he
  all_goals simp only [List.append_assoc, List.cons_append, List.nil_append, List.mem_append,
    List.mem_cons, List.not_mem_nil, or_false] at he
  all_goals (repeat' rcases he with he | he)
  all_goals try (obtain ⟨n, hn⟩ := hr e he; subst hn)
  all_goals simp [evTimeoutOk]

/-- C8, amended: the configured timeout is in effect for `sendall` and for
every `recv`, but never for `connect`, which runs with the socket default;
and exceeding the timeout at `sendall`, at the header read or at the body
read yields `False` through the distinct `socket.timeout` branch (timeout
log, never the generic exception log). -/
theorem C8_amended_timeout_scope (metrics : List Metric) (now_ns : Nat)
    (net : Net) (tm : Int) :
    (∀ o, Ev.connectCall o ∈ (send_to_zabbix metrics now_ns net tm).events → o = none) ∧
    (∀ o, Ev.sendCall o ∈ (send_to_zabbix metrics now_ns net tm).events → o = some tm) ∧
    (∀ n o, Ev.recvCall n o ∈ (send_to_zabbix metrics now_ns net tm).events → o = some tm) ∧
    (net.sockOk = true → net.connectRes = .ok () → net.sendRes = .tmo →
      (send_to_zabbix metrics now_ns net tm).result = .ok false ∧
      Ev.logErrorTimeout ∈ (send_to_zabbix metrics now_ns net tm).events ∧
      Ev.logException ∉ (send_to_zabbix metrics now_ns net tm).events) ∧
    (net.sockOk = true → net.connectRes = .ok () → net.sendRes = .ok () →
      (recv_all_go net.recvs 13 [] (some tm)).1 = .tmo →
      (send_to_zabbix metrics now_ns net tm).result = .ok false ∧
      Ev.logErrorTimeout ∈ (send_to_zabbix metrics now_ns net tm).events ∧
      Ev.logException ∉ (send_to_zabbix metrics now_ns net tm).events) ∧
    (∀ (hdr : List Nat) (tail : List (NetResult (List Nat))) (evsH : List Ev),
      net.sockOk = true → net.connectRes = .ok () → net.sendRes = .ok () →
      recv_all_go net.recvs 13 [] (some tm) = (.ok hdr, .tmo :: tail, evsH) →
      zbxd5.isPrefixOf hdr → hdr.length = 13 →
      (send_to_zabbix metrics now_ns net tm).result = .ok false ∧
      Ev.logErrorTimeout ∈ (send_to_zabbix metrics now_ns net tm).events ∧
      Ev.logException ∉ (send_to_zabbix metrics now_ns net tm).events) := by
  refine ⟨fun o ho => ?_, fun o ho => ?_, fun n o ho => ?_, fun h1 h2 h3 => ?_,
    fun h1 h2 h3 h4 => ?_, fun hdr tail evsH h1 h2 h3 h4 h5 h6 => ?_⟩
  · simpa [evTimeoutOk] using send_events_timeout_scope metrics now_ns net tm _ ho
  · simpa [evTimeoutOk] using send_events_timeout_scope metrics now_ns net tm _ ho
  · simpa [evTimeoutOk] using send_events_timeout_scope metrics now_ns net tm _ ho
  · simp only [send_to_zabbix, h1, h2, h3]
    rw [if_pos trivial]
    exact ⟨rfl, by simp, by simp⟩
  · rcases hh : recv_all_go net.recvs 13 [] (some tm) with ⟨r, rest, evs⟩
    rw [hh] at h4
    simp only at h4
    subst h4
    have hev : ∀ e ∈ evs, ∃ n, e = Ev.recvCall n (some tm) := fun e he =>
      recv_all_go_events net.recvs 13 [] (some tm) e (by rw [hh]; exact he)
    simp only [send_to_zabbix, h1, h2, h3, hh]
    rw [if_pos trivial]
    refine ⟨rfl, by simp, ?_⟩
    intro hmem
    simp only [List.mem_append] at hmem
    rcases hmem with ((h | h) | h) | h
    · simp at h
    · simp at h
    · obtain ⟨n, hn⟩ := hev _ h
      exact absurd hn (by simp)
    · simp at h
  · have hev : ∀ e ∈ evsH, ∃ n, e = Ev.recvCall n (some tm) := fun e he =>
      recv_all_go_events net.recvs 13 [] (some tm) e (by rw [h4]; exact he)
    simp only [send_to_zabbix, h1, h2, h3, h4]
    rw [if_pos trivial, if_neg (by simp [h5, h6])]
    refine ⟨rfl, by simp, ?_⟩
    intro hmem
    simp only [List.mem_append] at hmem
    rcases hmem with (((h | h) | h) | h) | h
    · simp at h
    · simp at h
    · obtain ⟨n, hn⟩ := hev _ h
      exact absurd hn (by simp)
    · simp at h
    · simp at h

/-- C8, witness: a `sendall` timeout, a header-read timeout and a
body-read timeout each return `False` through the timeout branch, while
the `connect` event of the same runs carries no timeout. -/
theorem C8_amended_timeout_scope_witness :
    ((send_to_zabbix [] 0 netSendTmo 15).result = .ok false ∧
      Ev.logErrorTimeout ∈ (send_to_zabbix [] 0 netSendTmo 15).events ∧
      Ev.logException ∉ (send_to_zabbix [] 0 netSendTmo 15).events) ∧
    ((send_to_zabbix [] 0 netHdrTmo 15).result = .ok false ∧
      Ev.logErrorTimeout ∈ (send_to_zabbix [] 0 netHdrTmo 15).events ∧
      Ev.logException ∉ (send_to_zabbix [] 0 netHdrTmo 15).events) ∧
    ((send_to_zabbix [] 0 netBodyTmo 15).result = .ok false ∧
      Ev.logErrorTimeout ∈ (send_to_zabbix [] 0 netBodyTmo 15).events ∧
      Ev.logException ∉ (send_to_zabbix [] 0 netBodyTmo 15).events) ∧
    (none : Option Int) = none := by
  exact ⟨(C8_amended_timeout_scope [] 0 netSendTmo 15).2.2.2.1 rfl rfl rfl,
         (C8_amended_timeout_scope [] 0 netHdrTmo 15).2.2.2.2.1 rfl rfl rfl (by decide),
         (C8_amended_timeout_scope [] 0 netBodyTmo 15).2.2.2.2.2 hdrGood []
           [Ev.recvCall 13 (some 15)] rfl rfl rfl (by decide) (by decide) (by decide),
         (C8_amended_timeout_scope [] 0 netSendTmo 15).1 none (by decide)⟩

theorem take_take_append {α : Type} (c f : List α) (k : Nat) :
    (c.take k ++ f).take k = (c ++ f).take k := by
  simp only [List.take_append_eq_append_take, List.take_take, List.length_take]
  congr 1
  · simp [Nat.min_self]
  · congr 1
    omega

/-- `_recv_all` accumulates successive nonempty chunks until the requested
count is reached: with enough data on offer it returns exactly the first
`count` bytes of the delivered stream. -/
theorem recv_all_go_accum (chunks : List (List Nat)) (extra : List (NetResult (List Nat)))
    (count : Nat) (buf : List Nat) (t : Option Int)
    (hne : ∀ c ∈ chunks, c ≠ []) (hlen : count ≤ buf.length + chunks.flatten.length)
    (hbuf : buf.length ≤ count) :
    (recv_all_go (chunks.map .ok ++ extra) count buf t).1 =
      .ok ((buf ++ chunks.flatten).take count) := by
  induction chunks generalizing buf with
  | nil =>
    simp only [List.flatten_nil, List.length_nil, Nat.add_zero] at hlen
    have hc : count = buf.length := by omega
    unfold recv_all_go
    rw [if_pos hlen]
    simp [hc, List.take_left]
  | cons c cs ih =>
    by_cases hcb : count ≤ buf.length
    · have hc : count = buf.length := by omega
      unfold recv_all_go
      rw [if_pos hcb]
      simp only [hc]
      rw [List.take_left]
    · unfold recv_all_go
      rw [if_neg hcb]
      simp only [List.map_cons, List.cons_append]
      have hcne : c ≠ [] := hne c (by simp)
      have hch : ¬ (c.take (count - buf.length)).isEmpty = true := by
        simp only [List.isEmpty_iff, List.take_eq_nil_iff]
        push_neg
        exact ⟨by omega, hcne⟩
      simp only [hch, if_false, Bool.false_eq_true]
      have := ih (buf ++ c.take (count - buf.length))
        (fun x hx => hne x (by simp [hx]))
        (by
          simp only [List.length_append, List.length_take]
          simp only [List.flatten_cons, List.length_append] at hlen
          omega)
        (by
          simp only [List.length_append, List.length_take]
          omega)
      rw [this]
      congr 1
      simp only [List.flatten_cons, List.append_assoc]
      conv_lhs => rw [List.take_append_eq_append_take]
      conv_rhs => rw [List.take_append_eq_append_take]
      congr 1
      exact take_take_append c cs.flatten (count - buf.length)

/-- When the peer delivers fewer bytes than requested and then closes
(empty chunk), `_recv_all` returns the short buffer accumulated so far and
stops reading. -/
theorem recv_all_go_early_close (chunks : List (List Nat)) (rest : List (NetResult (List Nat)))
    (count : Nat) (buf : List Nat) (t : Option Int)
    (hne : ∀ c ∈ chunks, c ≠ []) (hlen : buf.length + chunks.flatten.length < count) :
    (recv_all_go (chunks.map .ok ++ .ok [] :: rest) count buf t).1 = .ok (buf ++ chunks.flatten) ∧
    (recv_all_go (chunks.map .ok ++ .ok [] :: rest) count buf t).2.1 = rest := by
  induction chunks generalizing buf with
  | nil =>
    simp only [List.flatten_nil, List.length_nil, Nat.add_zero] at hlen
    unfold recv_all_go
    rw [if_neg (by omega)]
    simp
  | cons c cs ih =>
    simp only [List.flatten_cons, List.length_append] at hlen
    unfold recv_all_go
    rw [if_neg (by omega)]
    simp only [List.map_cons, List.cons_append]
    have hctake : c.take (count - buf.length) = c := List.take_of_length_le (by omega)
    have hch : ¬ (c.take (count - buf.length)).isEmpty = true := by
      rw [hctake]
      simpa [List.isEmpty_iff] using hne c (by simp)
    simp only [hch, if_false, Bool.false_eq_true, hctake]
    have hcne : ¬ (c = []) := by simpa using hne c (by simp)
    have := ih (buf ++ c) (fun x hx => hne x (by simp [hx]))
      (by simp only [List.length_append]; omega)
    simpa [List.append_assoc, hcne] using this

/-- Once a valid header has been read, the body is fetched with exactly one
further `recv` call, whatever it returns — no completion loop. -/
theorem body_read_single (metrics : List Metric) (now_ns : Nat)
    (net : Net) (tm : Int) (hdr : List Nat) (rest : List (NetResult (List Nat)))
    (evsH : List Ev)
    (h1 : net.sockOk = true) (h2 : net.connectRes = .ok ())
    (h3 : net.sendRes = .ok ())
    (h4 : recv_all_go net.recvs 13 [] (some tm) = (.ok hdr, rest, evsH))
    (h5 : zbxd5.isPrefixOf hdr) (h6 : hdr.length = 13) :
    countRecv (send_to_zabbix metrics now_ns net tm).events = countRecv evsH + 1 := by
  simp only [send_to_zabbix, h1, h2, h3, h4]
  rw [if_pos trivial, if_neg (by simp [h5, h6])]
  repeat' split
  all_goals simp [countRecv, List.filter_append, isRecvEv]

/-- C9: the header read loops, accumulating arbitrary nonempty partial
chunks until 13 bytes are obtained (first conjunct) or the peer closes
early, in which case the short buffer is returned (second conjunct); the
body, in contrast, is read by a single `recv` call after a valid header,
with no completion loop (third conjunct). -/
theorem C9_header_loop_body_single_read :
    (∀ (chunks : List (List Nat)) (extra : List (NetResult (List Nat))) (t : Option Int),
      (∀ c ∈ chunks, c ≠ []) → 13 ≤ chunks.flatten.length →
      (recv_all_go (chunks.map .ok ++ extra) 13 [] t).1 = .ok (chunks.flatten.take 13)) ∧
    (∀ (chunks : List (List Nat)) (rest : List (NetResult (List Nat))) (t : Option Int),
      (∀ c ∈ chunks, c ≠ []) → chunks.flatten.length < 13 →
      (recv_all_go (chunks.map .ok ++ .ok [] :: rest) 13 [] t).1 = .ok chunks.flatten ∧
      (recv_all_go (chunks.map .ok ++ .ok [] :: rest) 13 [] t).2.1 = rest) ∧
    (∀ (metrics : List Metric) (now_ns : Nat) (net : Net) (tm : Int)
      (hdr : List Nat) (rest : List (NetResult (List Nat))) (evsH : List Ev),
      net.sockOk = true → net.connectRes = .ok () → net.sendRes = .ok () →
      recv_all_go net.recvs 13 [] (some tm) = (.ok hdr, rest, evsH) →
      zbxd5.isPrefixOf hdr → hdr.length = 13 →
      countRecv (send_to_zabbix metrics now_ns net tm).events = countRecv evsH + 1) := by
  refine ⟨fun chunks extra t hne hlen => ?_, fun chunks rest t hne hlen => ?_,
    fun metrics now_ns net tm hdr rest evsH h1 h2 h3 h4 h5 h6 =>
      body_read_single metrics now_ns net tm hdr rest evsH h1 h2 h3 h4 h5 h6⟩
  · simpa using recv_all_go_accum chunks extra 13 [] t hne (by simpa using hlen) (by simp)
  · simpa using recv_all_go_early_close chunks rest 13 [] t hne (by simpa using hlen)

/-- C9, witness: a header delivered as 2 + 5 + 7 bytes is accumulated to 13,
three bytes followed by a close yield the short buffer, and a run whose
header arrives in two chunks performs exactly one body `recv`. -/
theorem C9_header_loop_body_single_read_witness :
    (recv_all_go ([[90, 66], [88, 68, 1, 7, 7], [7, 7, 7, 7, 7, 7, 7]].map .ok ++ []) 13 [] none).1 =
      .ok ([[90, 66], [88, 68, 1, 7, 7], [7, 7, 7, 7, 7, 7, 7]].flatten.take 13) ∧
    ((recv_all_go ([[1, 2, 3]].map .ok ++ .ok [] :: []) 13 [] none).1 = .ok [[1, 2, 3]].flatten ∧
      (recv_all_go ([[1, 2, 3]].map .ok ++ .ok [] :: []) 13 [] none).2.1 = []) ∧
    countRecv (send_to_zabbix [] 0 netSplitHdr 15).events =
      countRecv [Ev.recvCall 13 (some 15), Ev.recvCall 11 (some 15)] + 1 := by
  refine ⟨C9_header_loop_body_single_read.1 _ _ _ (by decide) (by decide),
          C9_header_loop_body_single_read.2.1 _ _ _ (by decide) (by decide),
          C9_header_loop_body_single_read.2.2 [] 0 netSplitHdr 15 hdrGood [.ok respSuccessBody]
            [Ev.recvCall 13 (some 15), Ev.recvCall 11 (some 15)]
            rfl rfl rfl (by decide) (by decide) (by decide)⟩

/-- C2: `send_to_zabbix` returns `True` exactly when the protocol exchange
completes and the parsed response object's `response` field equals
`"success"` — `specReportsSuccess` transcribing that success contract from
the spec; every other value of the field (or any earlier failure) yields
`False`. -/
theorem C2_success_iff_spec (metrics : List Metric) (now_ns : Nat) (net : Net) (tm : Int) :
    (send_to_zabbix metrics now_ns net tm).result = .ok true ↔
      specReportsSuccess net tm = true := by
  obtain ⟨so, cr, sr, rs⟩ := net
  rcases h : recv_all_go rs 13 [] (some tm) with ⟨r, rest, evtr⟩
  cases so <;> cases cr <;> cases sr <;>
    simp only [send_to_zabbix, specReportsSuccess, h] <;> try simp
  rw [if_pos trivial]
  cases r with
  | tmo => simp
  | err => simp
  | ok hdr =>
    dsimp only
    by_cases hv : zbxd5.isPrefixOf hdr = true ∧ hdr.length = 13
    · rw [if_neg (by simp [hv.1, hv.2]), if_pos hv]
      cases rest with
      | nil => simp
      | cons hd tail =>
        cases hd with
        | tmo => simp
        | err => simp
        | ok chunk =>
          cases hpj : (utf8Decode (chunk.take (le64 (hdr.drop 5)))).bind parseJson with
          | none => simp [hpj]
          | some resp =>
            cases resp with
            | jobj fields =>
              cases hlk : lookupLast fields (("response").data) with
              | none => simp [hpj, hlk]
              | some v =>
                cases v with
                | jstr s =>
                  by_cases hs : s = ("success").data
                  · simp [hpj, hlk, hs]
                  · simp [hpj, hlk, hs]
                | jnull => simp [hpj, hlk]
                | jint n => simp [hpj, hlk]
                | jarr xs => simp [hpj, hlk]
                | jobj fs => simp [hpj, hlk]
            | jnull => simp [hpj]
            | jint n => simp [hpj]
            | jstr s => simp [hpj]
            | jarr xs => simp [hpj]
    · rw [if_pos (by tauto), if_neg hv]
      simp

theorem digitChar_toNat (k : Nat) (h : k < 10) : (digitChar k).toNat = 48 + k := by
  interval_cases k <;> decide

theorem digitChar_isDigit (k : Nat) (h : k < 10) : (digitChar k).isDigit = true := by
  interval_cases k <;> decide

theorem natDigitsCore_append (n : Nat) :
    ∀ (fuel : Nat) (acc : List Char), n < fuel →
      natDigitsCore fuel n acc = natDigits n ++ acc := by
  induction n using Nat.strong_induction_on with
  | _ n ih =>
    intro fuel acc hf
    match fuel with
    | f + 1 =>
      by_cases h10 : n < 10
      · simp [natDigitsCore, natDigits, h10]
      · have hdiv : n / 10 < n := Nat.div_lt_self (by omega) (by omega)
        have hrec1 : natDigitsCore (f + 1) n acc =
            natDigitsCore f (n / 10) (digitChar (n % 10) :: acc) := by
          simp [natDigitsCore, h10]
        have hrec2 : natDigits n = natDigits (n / 10) ++ [digitChar (n % 10)] := by
          show natDigitsCore (n + 1) n [] = _
          simp only [natDigitsCore, h10, if_false]
          exact ih (n / 10) hdiv n [digitChar (n % 10)] (by omega)
        rw [hrec1, ih (n / 10) hdiv f (digitChar (n % 10) :: acc) (by omega), hrec2,
          List.append_assoc]
        rfl

theorem natDigits_ne_nil (n : Nat) : natDigits n ≠ [] := by
  by_cases h10 : n < 10
  · simp [natDigits, natDigitsCore, h10]
  · rw [show natDigits n = natDigitsCore (n + 1) n [] from rfl]
    simp only [natDigitsCore, h10, if_false]
    rw [natDigitsCore_append (n / 10) n [digitChar (n % 10)] (by
      have := Nat.div_lt_self (show 0 < n by omega) (show 1 < 10 by omega)
      omega)]
    simp

theorem natDigits_all_digit (n : Nat) : ∀ c ∈ natDigits n, c.isDigit = true := by
  induction n using Nat.strong_induction_on with
  | _ n ih =>
    by_cases h10 : n < 10
    · intro c hc
      simp [natDigits, natDigitsCore, h10] at hc
      subst hc
      exact digitChar_isDigit n h10
    · have hdiv : n / 10 < n := Nat.div_lt_self (by omega) (by omega)
      intro c hc
      rw [show natDigits n = natDigitsCore (n + 1) n [] from rfl] at hc
      simp only [natDigitsCore, h10, if_false] at hc
      rw [natDigitsCore_append (n / 10) n [digitChar (n % 10)] (by omega)] at hc
      rcases List.mem_append.mp hc with hc | hc
      · exact ih (n / 10) hdiv c hc
      · simp at hc
        subst hc
        exact digitChar_isDigit (n % 10) (Nat.mod_lt _ (by omega))

theorem foldl_natDigits (n : Nat) :
    ∀ a : Nat, (natDigits n).foldl (fun a c => a * 10 + (c.toNat - 48)) a =
      a * 10 ^ (natDigits n).length + n := by
  induction n using Nat.strong_induction_on with
  | _ n ih =>
    intro a
    by_cases h10 : n < 10
    · simp [natDigits, natDigitsCore, h10, digitChar_toNat n h10]
    · have hdiv : n / 10 < n := Nat.div_lt_self (by omega) (by omega)
      have hrec2 : natDigits n = natDigits (n / 10) ++ [digitChar (n % 10)] := by
        show natDigitsCore (n + 1) n [] = _
        simp only [natDigitsCore, h10, if_false]
        exact natDigitsCore_append (n / 10) n [digitChar (n % 10)] (by omega)
      rw [hrec2, List.foldl_append, ih (n / 10) hdiv a]
      simp [digitChar_toNat (n % 10) (Nat.mod_lt _ (by omega)), List.length_append,
        pow_succ]
      ring_nf
      rw [Nat.mul_comm]
      omega

theorem digitsVal_natDigits (n : Nat) : digitsVal (natDigits n) = n := by
  unfold digitsVal
  rw [foldl_natDigits n 0]
  simp

theorem takeWhile_append_stop {p : Char → Bool} {xs ys : List Char}
    (hx : ∀ c ∈ xs, p c = true)
    (hy : match ys with | [] => True | c :: _ => p c = false) :
    (xs ++ ys).takeWhile p = xs ∧ (xs ++ ys).dropWhile p = ys := by
  induction xs with
  | nil =>
    simp only [List.nil_append]
    match ys with
    | [] => simp
    | c :: t => simp [List.takeWhile, List.dropWhile, hy]
  | cons x xs ih =>
    have hpx : p x = true := hx x (by simp)
    have := ih (fun c hc => hx c (by simp [hc]))
    simp [List.takeWhile, List.dropWhile, hpx, this.1, this.2]

theorem parseNatChars_natDigits (n : Nat) (rest : List Char) (hrest : headNotDigit rest) :
    parseNatChars (natDigits n ++ rest) = some (n, rest) := by
  have hstop := @takeWhile_append_stop Char.isDigit (natDigits n) rest
    (natDigits_all_digit n) (by cases rest with | nil => trivial | cons c t => exact hrest)
  unfold parseNatChars
  rw [hstop.1, hstop.2]
  simp only [List.isEmpty_iff, natDigits_ne_nil n, if_false]
  have := digitsVal_natDigits n
  unfold digitsVal at this
  simp [this, natDigits_ne_nil n]

theorem isDigit_toNat_bounds (c : Char) (h : c.isDigit = true) :
    48 ≤ c.toNat ∧ c.toNat ≤ 57 := by
  unfold Char.isDigit at h
  simp only [Bool.and_eq_true, decide_eq_true_eq] at h
  exact ⟨h.1, h.2⟩

theorem natDigits_head (n : Nat) :
    ∃ c t, natDigits n = c :: t ∧ 48 ≤ c.toNat ∧ c.toNat ≤ 57 := by
  match h : natDigits n with
  | [] => exact absurd h (natDigits_ne_nil n)
  | c :: t =>
    have := natDigits_all_digit n c (by rw [h]; simp)
    exact ⟨c, t, rfl, isDigit_toNat_bounds c this⟩

theorem hexVal_hexDigitCh (k : Nat) (h : k < 16) : hexVal (hexDigitCh k) = some k := by
  interval_cases k <;> decide

theorem parseStrBody_escList (s : List Char) (rest : List Char) :
    parseStrBody (escList s ++ '"' :: rest) = some (s, rest) := by
  induction s with
  | nil =>
    show parseStrBody ('"' :: rest) = some ([], rest)
    rw [parseStrBody.eq_def]
    simp
  | cons c cs ih =>
    have hcons : escList (c :: cs) = escChar c ++ escList cs := by
      simp [escList]
    rw [hcons, List.append_assoc]
    by_cases hq : c = '"'
    · subst hq
      rw [show escChar '"' = ['\\', '"'] from rfl]
      simp only [List.cons_append, List.nil_append]
      rw [parseStrBody.eq_def]
      simp [ih]
    · by_cases hb : c = '\\'
      · subst hb
        rw [show escChar '\\' = ['\\', '\\'] from rfl]
        simp only [List.cons_append, List.nil_append]
        rw [parseStrBody.eq_def]
        simp [ih]
      · by_cases hctl : c.toNat < 32
        · have hofnat := Char.ofNat_toNat c
          by_cases h8 : c.toNat = 8
          · have hc : c = Char.ofNat 8 := by rw [← hofnat, h8]
            subst hc
            rw [show escChar (Char.ofNat 8) = ['\\', 'b'] from rfl]
            simp only [List.cons_append, List.nil_append]
            rw [parseStrBody.eq_def]
            simp [ih]
          · by_cases h9 : c.toNat = 9
            · have hc : c = '\t' := by rw [← hofnat, h9]
              subst hc
              rw [show escChar '\t' = ['\\', 't'] from rfl]
              simp only [List.cons_append, List.nil_append]
              rw [parseStrBody.eq_def]
              simp [ih]
            · by_cases h10 : c.toNat = 10
              · have hc : c = '\n' := by rw [← hofnat, h10]
                subst hc
                rw [show escChar '\n' = ['\\', 'n'] from rfl]
                simp only [List.cons_append, List.nil_append]
                rw [parseStrBody.eq_def]
                simp [ih]
              · by_cases h12 : c.toNat = 12
                · have hc : c = Char.ofNat 12 := by rw [← hofnat, h12]
                  subst hc
                  rw [show escChar (Char.ofNat 12) = ['\\', 'f'] from rfl]
                  simp only [List.cons_append, List.nil_append]
                  rw [parseStrBody.eq_def]
                  simp [ih]
                · by_cases h13 : c.toNat = 13
                  · have hc : c = '\r' := by rw [← hofnat, h13]
                    subst hc
                    rw [show escChar '\r' = ['\\', 'r'] from rfl]
                    simp only [List.cons_append, List.nil_append]
                    rw [parseStrBody.eq_def]
                    simp [ih]
                  · have hesc : escChar c =
                        ['\\', 'u', '0', '0', hexDigitCh (c.toNat / 16), hexDigitCh (c.toNat % 16)] := by
                      unfold escChar
                      rw [if_neg hq, if_neg hb, if_pos hctl, if_neg h8, if_neg h9,
                        if_neg h10, if_neg h12, if_neg h13]
                    have hx1 : hexVal (hexDigitCh (c.toNat / 16)) = some (c.toNat / 16) :=
                      hexVal_hexDigitCh _ (by omega)
                    have hx2 : hexVal (hexDigitCh (c.toNat % 16)) = some (c.toNat % 16) :=
                      hexVal_hexDigitCh _ (by omega)
                    rw [hesc]
                    simp only [List.cons_append, List.nil_append]
                    rw [parseStrBody.eq_def]
                    simp only [hx1, hx2]
                    simp [ih]
                    rw [show hexVal '0' = some 0 from rfl]
                    dsimp only
                    rw [show ((0 * 16 + 0) * 16 + c.toNat / 16) * 16 + c.toNat % 16 = c.toNat
                      from by omega]
                    rw [if_pos (show isValidCharNat c.toNat from Or.inl (by omega)), hofnat]
        · have hesc : escChar c = [c] := by
            unfold escChar
            rw [if_neg hq, if_neg hb, if_neg hctl]
          rw [hesc]
          simp only [List.cons_append, List.nil_append]
          rw [parseStrBody.eq_def]
          simp only [if_neg hq, if_neg hb, if_neg hctl]
          simp [ih]

theorem null_no_pfx (c : Char) (t : List Char) (hc : ¬ c = 'n') :
    ("null").data.isPrefixOf (c :: t) = false := by
  show (['n', 'u', 'l', 'l'] : List Char).isPrefixOf (c :: t) = false
  simp only [List.isPrefixOf, Bool.and_eq_false_iff]
  left
  simpa [beq_iff_eq] using fun h => hc h.symm

theorem parsesFrom_jnull : ParsesFrom .jnull 1 := by
  intro fuel rest hf _
  match fuel, hf with
  | f + 1, _ =>
    show parseValue (f + 1) (('n' :: 'u' :: 'l' :: 'l' :: []) ++ rest) = _
    rw [parseValue.eq_def]
    dsimp only
    rw [if_pos (by simp [List.isPrefixOf_iff_prefix])]
    rfl

theorem parsesFrom_jstr (s : List Char) : ParsesFrom (.jstr s) 1 := by
  intro fuel rest hf _
  match fuel, hf with
  | f + 1, _ =>
    have hshape : strLit s ++ rest = '"' :: (escList s ++ '"' :: rest) := by
      simp [strLit]
    show parseValue (f + 1) (strLit s ++ rest) = _
    rw [hshape, parseValue.eq_def]
    dsimp only
    rw [null_no_pfx '"' _ (by decide)]
    simp [parseStrBody_escList s rest]

theorem parsesFrom_jint (n : Int) : ParsesFrom (.jint n) 1 := by
  intro fuel rest hf hrest
  match fuel, hf with
  | f + 1, _ =>
    show parseValue (f + 1) (intChars n ++ rest) = _
    by_cases hneg : n < 0
    · rw [show intChars n = '-' :: natDigits n.natAbs from by simp [intChars, hneg]]
      rw [List.cons_append, parseValue.eq_def]
      dsimp only
      rw [null_no_pfx '-' _ (by decide)]
      rw [if_neg (by decide), if_neg (by decide), if_neg (by decide), if_pos rfl]
      rw [parseNatChars_natDigits n.natAbs rest hrest]
      have h : -(n.natAbs : Int) = n := by omega
      dsimp only [Option.map]
      rw [h, if_neg (show ¬ (('-' : Char) = '[') by decide)]
    · obtain ⟨c, t, hct, h48, h57⟩ := natDigits_head n.natAbs
      rw [show intChars n = natDigits n.natAbs from by simp [intChars, hneg]]
      rw [hct, List.cons_append, parseValue.eq_def]
      dsimp only
      rw [null_no_pfx c _ (by rintro rfl; exact absurd h57 (by decide))]
      rw [if_neg (show ¬ (false = true) by decide)]
      rw [if_neg (by rintro rfl; exact absurd h48 (by decide)),
        if_neg (by rintro rfl; exact absurd h57 (by decide)),
        if_neg (by rintro rfl; exact absurd h57 (by decide)),
        if_neg (by rintro rfl; exact absurd h48 (by decide))]
      rw [← List.cons_append, ← hct, parseNatChars_natDigits n.natAbs rest hrest]
      have h : (n.natAbs : Int) = n := by omega
      dsimp only [Option.map]
      rw [h]

theorem strLit_shape (k : List Char) (x : List Char) :
    strLit k ++ x = '"' :: (escList k ++ '"' :: x) := by
  simp [strLit]

theorem headNotDigit_rbrace (rest : List Char) : headNotDigit (rbrace :: rest) := by
  show rbrace.isDigit = false
  decide

theorem headNotDigit_comma (rest : List Char) : headNotDigit (',' :: rest) := by
  show (',').isDigit = false
  decide

theorem headNotDigit_rbrack (rest : List Char) : headNotDigit (']' :: rest) := by
  show (']').isDigit = false
  decide

theorem parseMembers_atoms (ms : List (List Char × JValue)) :
    ms ≠ [] → (∀ p ∈ ms, ParsesFrom p.2 1) →
    ∀ fuel rest, ms.length + 1 ≤ fuel →
      parseMembers fuel (serializeMembers ms ++ rbrace :: rest) = some (ms, rest) := by
  induction ms with
  | nil => intro h; exact absurd rfl h
  | cons p ms ih =>
    intro _ hatoms fuel rest hfuel
    obtain ⟨k, v⟩ := p
    obtain ⟨g, rfl⟩ : ∃ g, fuel = g + 1 := ⟨fuel - 1, by omega⟩
    · cases ms with
      | nil =>
        show parseMembers (g + 1) ((strLit k ++ ':' :: serialize v) ++ rbrace :: rest) = _
        rw [List.append_assoc, List.cons_append, strLit_shape, parseMembers.eq_def]
        dsimp only
        rw [if_pos rfl, parseStrBody_escList k (':' :: (serialize v ++ rbrace :: rest))]
        dsimp only
        rw [if_pos rfl]
        rw [hatoms (k, v) (by simp) g (rbrace :: rest)
          (by simp at hfuel; omega) (headNotDigit_rbrace rest)]
        dsimp only
        rw [if_neg (by decide), if_pos rfl]
      | cons m ms' =>
        show parseMembers (g + 1)
          ((strLit k ++ ':' :: serialize v ++ ',' :: serializeMembers (m :: ms')) ++ rbrace :: rest) = _
        rw [List.append_assoc, List.cons_append, List.append_assoc, List.cons_append,
          strLit_shape, parseMembers.eq_def]
        dsimp only
        rw [if_pos rfl,
          parseStrBody_escList k (':' :: (serialize v ++ ',' :: (serializeMembers (m :: ms') ++ rbrace :: rest)))]
        dsimp only
        rw [if_pos rfl]
        rw [hatoms (k, v) (by simp) g (',' :: (serializeMembers (m :: ms') ++ rbrace :: rest))
          (by simp at hfuel; omega)
          (headNotDigit_comma (serializeMembers (m :: ms') ++ rbrace :: rest))]
        dsimp only
        rw [if_pos rfl]
        rw [ih (by simp) (fun q hq => hatoms q (by simp [hq])) g rest
          (by simp at hfuel ⊢; omega)]
        rfl

theorem serializeMembers_head (k : List Char) (v : JValue)
    (ms : List (List Char × JValue)) (x : List Char) :
    ∃ t, serializeMembers ((k, v) :: ms) ++ x = '"' :: t := by
  cases ms with
  | nil => exact ⟨escList k ++ '"' :: (':' :: serialize v ++ x), by simp [serializeMembers, strLit]⟩
  | cons m ms' =>
    exact ⟨escList k ++ '"' :: (':' :: serialize v ++ ',' :: serializeMembers (m :: ms') ++ x),
      by simp [serializeMembers, strLit]⟩

/-- Every value of a metric entry is an atom. -/
theorem metricEntry_atoms (now_ns : Nat) (m : Metric) :
    ∀ p ∈ [(("host").data, JValue.jstr m.host),
           (("key").data, JValue.jstr m.key),
           (("value").data, JValue.jstr m.value.str),
           (("clock").data, JValue.jint (resolveClock now_ns m).1),
           (("ns").data, optIntJson (resolveClock now_ns m).2)], ParsesFrom p.2 1 := by
  intro p hp
  simp only [List.mem_cons, List.not_mem_nil, or_false] at hp
  rcases hp with h | h | h | h | h <;> subst h
  · exact parsesFrom_jstr m.host
  · exact parsesFrom_jstr m.key
  · exact parsesFrom_jstr m.value.str
  · exact parsesFrom_jint _
  · cases hns : (resolveClock now_ns m).2 with
    | none => simpa [optIntJson] using parsesFrom_jnull
    | some v => simpa [optIntJson] using parsesFrom_jint v

theorem parsesFrom_metricEntry (now_ns : Nat) (m : Metric) :
    ParsesFrom (metricEntry now_ns m) 7 := by
  intro fuel rest hf hrest
  obtain ⟨g, rfl⟩ : ∃ g, fuel = g + 1 := ⟨fuel - 1, by omega⟩
  show parseValue (g + 1) (serialize (metricEntry now_ns m) ++ rest) = _
  rw [show serialize (metricEntry now_ns m) =
    lbrace :: serializeMembers [(("host").data, JValue.jstr m.host),
           (("key").data, JValue.jstr m.key),
           (("value").data, JValue.jstr m.value.str),
           (("clock").data, JValue.jint (resolveClock now_ns m).1),
           (("ns").data, optIntJson (resolveClock now_ns m).2)] ++ [rbrace] from rfl]
  simp only [List.cons_append, List.append_assoc, List.singleton_append, List.nil_append]
  rw [parseValue.eq_def]
  dsimp only
  rw [null_no_pfx lbrace _ (by decide),
    if_neg (show ¬ (false = true) by decide),
    if_neg (show ¬ (lbrace = '"') by decide), if_pos rfl]
  obtain ⟨t, ht⟩ := serializeMembers_head (("host").data) (JValue.jstr m.host)
    [(("key").data, JValue.jstr m.key),
     (("value").data, JValue.jstr m.value.str),
     (("clock").data, JValue.jint (resolveClock now_ns m).1),
     (("ns").data, optIntJson (resolveClock now_ns m).2)] (rbrace :: rest)
  rw [ht]
  dsimp only
  rw [if_neg (by decide), ← ht]
  rw [parseMembers_atoms _ (by simp) (metricEntry_atoms now_ns m) g rest (by simp; omega)]
  rfl

theorem parseElems_list (xs : List JValue) :
    xs ≠ [] → (∀ x ∈ xs, ParsesFrom x 7) →
    ∀ fuel rest, xs.length + 7 ≤ fuel →
      parseElems fuel (serializeElems xs ++ ']' :: rest) = some (xs, rest) := by
  induction xs with
  | nil => intro h; exact absurd rfl h
  | cons x xs ih =>
    intro _ h7 fuel rest hfuel
    obtain ⟨g, rfl⟩ : ∃ g, fuel = g + 1 := ⟨fuel - 1, by omega⟩
    cases xs with
    | nil =>
      show parseElems (g + 1) (serialize x ++ ']' :: rest) = _
      rw [parseElems.eq_def]
      dsimp only
      rw [h7 x (by simp) g (']' :: rest) (by simp at hfuel; omega) (headNotDigit_rbrack rest)]
      dsimp only
      rw [if_neg (by decide), if_pos rfl]
    | cons y ys =>
      show parseElems (g + 1)
        ((serialize x ++ ',' :: serializeElems (y :: ys)) ++ ']' :: rest) = _
      rw [List.append_assoc, List.cons_append, parseElems.eq_def]
      dsimp only
      rw [h7 x (by simp) g (',' :: (serializeElems (y :: ys) ++ ']' :: rest))
        (by simp at hfuel ⊢; omega) (headNotDigit_comma _)]
      dsimp only
      rw [if_pos rfl]
      rw [ih (by simp) (fun q hq => h7 q (by simp [hq])) g rest (by simp at hfuel ⊢; omega)]
      rfl

theorem buildEntries_fst (now_ns : Nat) (ms : List Metric) :
    (buildEntries now_ns ms).1 = ms.map (metricEntry now_ns) := by
  induction ms with
  | nil => rfl
  | cons m ms ih => simp [buildEntries, ih]

theorem serializeElems_entry_head (now_ns : Nat) (m : Metric) (vs : List JValue)
    (x : List Char) :
    ∃ t, serializeElems (metricEntry now_ns m :: vs) ++ x = lbrace :: t := by
  have hse : ∃ u, serialize (metricEntry now_ns m) = lbrace :: u := ⟨_, rfl⟩
  obtain ⟨u, hu⟩ := hse
  cases vs with
  | nil => exact ⟨u ++ x, by simp [serializeElems, hu]⟩
  | cons y ys => exact ⟨u ++ ',' :: serializeElems (y :: ys) ++ x, by simp [serializeElems, hu]⟩

theorem parseValue_senderObj (ms : List Metric) (now_ns : Nat) :
    ∀ fuel rest, ms.length + 11 ≤ fuel → headNotDigit rest →
      parseValue fuel (jsonData now_ns ms ++ rest) = some (senderObj now_ns ms, rest) := by
  intro fuel rest hf hrest
  obtain ⟨g3, rfl⟩ : ∃ g, fuel = g + 4 := ⟨fuel - 4, by omega⟩
  show parseValue (g3 + 3 + 1)
    (serialize (.jobj [(("request").data, .jstr ("sender data").data),
                       (("data").data, .jarr (buildEntries now_ns ms).1)]) ++ rest) = _
  rw [show serialize (.jobj [(("request").data, JValue.jstr ("sender data").data),
        (("data").data, .jarr (buildEntries now_ns ms).1)]) =
      lbrace :: serializeMembers [(("request").data, JValue.jstr ("sender data").data),
        (("data").data, .jarr (buildEntries now_ns ms).1)] ++ [rbrace] from rfl]
  simp only [List.cons_append, List.append_assoc, List.singleton_append, List.nil_append]
  rw [parseValue.eq_def]
  dsimp only
  rw [null_no_pfx lbrace _ (by decide),
    if_neg (show ¬ (false = true) by decide),
    if_neg (show ¬ (lbrace = '"') by decide), if_pos rfl]
  obtain ⟨t, ht⟩ := serializeMembers_head (("request").data) (JValue.jstr ("sender data").data)
    [(("data").data, .jarr (buildEntries now_ns ms).1)] (rbrace :: rest)
  rw [ht]
  dsimp only
  rw [if_neg (by decide), ← ht]
  -- the two members of the top object, by hand (the second value is an array)
  rw [show serializeMembers [(("request").data, JValue.jstr ("sender data").data),
        (("data").data, JValue.jarr (buildEntries now_ns ms).1)] =
      strLit (("request").data) ++ ':' :: serialize (JValue.jstr ("sender data").data) ++
        ',' :: (strLit (("data").data) ++ ':' :: serialize (JValue.jarr (buildEntries now_ns ms).1))
      from rfl]
  simp only [List.cons_append, List.append_assoc, List.singleton_append, List.nil_append]
  rw [strLit_shape, parseMembers.eq_def]
  dsimp only
  rw [if_pos rfl, parseStrBody_escList]
  dsimp only
  rw [if_pos rfl]
  rw [parsesFrom_jstr (("sender data").data) (g3 + 2)
    (',' :: (strLit (("data").data) ++ ':' :: (serialize (JValue.jarr (buildEntries now_ns ms).1) ++ rbrace :: rest)))
    (by omega) (headNotDigit_comma _)]
  dsimp only
  rw [if_pos rfl]
  rw [strLit_shape, parseMembers.eq_def]
  dsimp only
  rw [if_pos rfl, parseStrBody_escList]
  dsimp only
  rw [if_pos rfl]
  -- the "data" value: the array of entries
  rcases hms : ms with _ | ⟨m0, ms'⟩
  · rw [show (buildEntries now_ns ([] : List Metric)).1 = [] from rfl]
    rw [show serialize (JValue.jarr []) = '[' :: ']' :: [] from rfl]
    simp only [List.cons_append, List.nil_append]
    rw [parseValue.eq_def]
    dsimp only
    rw [null_no_pfx '[' _ (by decide),
      if_neg (show ¬ (false = true) by decide),
      if_neg (show ¬ (('[' : Char) = '"') by decide),
      if_neg (show ¬ (('[' : Char) = lbrace) by decide), if_pos rfl]
    try dsimp only
    rw [if_pos rfl]
    simp only [List.drop_succ_cons, List.drop_zero]
    try dsimp only
    try rw [if_pos trivial]
    rfl
  · rw [show serialize (JValue.jarr (buildEntries now_ns (m0 :: ms')).1) =
        '[' :: serializeElems (buildEntries now_ns (m0 :: ms')).1 ++ [']'] from rfl]
    simp only [List.cons_append, List.append_assoc, List.singleton_append, List.nil_append]
    rw [parseValue.eq_def]
    dsimp only
    rw [null_no_pfx '[' _ (by decide),
      if_neg (show ¬ (false = true) by decide),
      if_neg (show ¬ (('[' : Char) = '"') by decide),
      if_neg (show ¬ (('[' : Char) = lbrace) by decide), if_pos rfl]
    have hbe : (buildEntries now_ns (m0 :: ms')).1 =
        metricEntry now_ns m0 :: ms'.map (metricEntry now_ns) := by
      simp [buildEntries_fst]
    rw [hbe]
    obtain ⟨t2, ht2⟩ := serializeElems_entry_head now_ns m0 (ms'.map (metricEntry now_ns))
      (']' :: (rbrace :: rest))
    rw [ht2]
    dsimp only
    rw [if_neg (show ¬ (lbrace = ']') by decide), ← ht2]
    rw [parseElems_list (metricEntry now_ns m0 :: ms'.map (metricEntry now_ns))
      (by simp)
      (by
        intro x hx
        simp only [List.mem_cons, List.mem_map] at hx
        rcases hx with h | ⟨m', _, h⟩
        · subst h; exact parsesFrom_metricEntry now_ns m0
        · subst h; exact parsesFrom_metricEntry now_ns m')
      g3 (rbrace :: rest)
      (by
        subst hms
        simp at hf ⊢
        omega)]
    simp [senderObj, hbe, show ¬ (rbrace = ',') from by decide]

theorem serializeElems_entries_len (now_ns : Nat) (ms : List Metric) :
    ms.length ≤ (serializeElems (ms.map (metricEntry now_ns))).length := by
  induction ms with
  | nil => simp [serializeElems]
  | cons m ms ih =>
    cases ms with
    | nil =>
      show 1 ≤ (serializeElems [metricEntry now_ns m]).length
      rw [show serializeElems [metricEntry now_ns m] = serialize (metricEntry now_ns m) from rfl]
      rw [show serialize (metricEntry now_ns m) =
        lbrace :: (serializeMembers [(("host").data, JValue.jstr m.host),
           (("key").data, JValue.jstr m.key),
           (("value").data, JValue.jstr m.value.str),
           (("clock").data, JValue.jint (resolveClock now_ns m).1),
           (("ns").data, optIntJson (resolveClock now_ns m).2)] ++ [rbrace]) from rfl]
      simp
    | cons m2 ms' =>
      show (m :: m2 :: ms').length ≤
        (serialize (metricEntry now_ns m) ++ ',' :: serializeElems ((m2 :: ms').map (metricEntry now_ns))).length
      have h2 := ih
      simp only [List.length_append, List.length_cons] at h2 ⊢
      omega

theorem jsonData_len (now_ns : Nat) (ms : List Metric) :
    (jsonData now_ns ms).length =
      (serializeElems ((buildEntries now_ns ms).1)).length + 35 := by
  rw [show jsonData now_ns ms =
    lbrace :: (strLit (("request").data) ++ ':' :: (strLit (("sender data").data) ++
      ',' :: (strLit (("data").data) ++ ':' ::
        ('[' :: (serializeElems ((buildEntries now_ns ms).1) ++ [']']) ++ [rbrace]))))
    from rfl]
  have h1 : (strLit (("request").data)).length = 9 := rfl
  have h2 : (strLit (("sender data").data)).length = 13 := rfl
  have h3 : (strLit (("data").data)).length = 6 := rfl
  simp [h1, h2, h3]
  omega

/-- The reference parser inverts the compact serializer on every request
body the client can produce. -/
theorem parseJson_jsonData (now_ns : Nat) (ms : List Metric) :
    parseJson (jsonData now_ns ms) = some (senderObj now_ns ms) := by
  have hlen : ms.length + 11 ≤ (jsonData now_ns ms).length + 1 := by
    have h1 := serializeElems_entries_len now_ns ms
    rw [← buildEntries_fst now_ns ms] at h1
    have h2 := jsonData_len now_ns ms
    omega
  have := parseValue_senderObj ms now_ns ((jsonData now_ns ms).length + 1) [] hlen trivial
  rw [List.append_nil] at this
  unfold parseJson
  rw [this]

theorem hexDigitCh_toNat_range (k : Nat) (h : k < 16) :
    48 ≤ (hexDigitCh k).toNat ∧ (hexDigitCh k).toNat ≤ 102 := by
  interval_cases k <;> exact (by decide)

/-- Every character the escaper emits is printable (code point at least
32): control characters never survive escaping. -/
theorem escChar_ge32 (c : Char) : ∀ d ∈ escChar c, 32 ≤ d.toNat := by
  intro d hd
  unfold escChar at hd
  by_cases hq : c = '"'
  · rw [if_pos hq] at hd
    rcases (by simpa using hd : d = '\\' ∨ d = '"') with h | h <;> subst h <;> decide
  · rw [if_neg hq] at hd
    by_cases hb : c = '\\'
    · rw [if_pos hb] at hd
      rcases (by simpa using hd : d = '\\' ∨ d = '\\') with h | h <;> subst h <;> decide
    · rw [if_neg hb] at hd
      by_cases hctl : c.toNat < 32
      · rw [if_pos hctl] at hd
        by_cases h8 : c.toNat = 8
        · rw [if_pos h8] at hd
          rcases (by simpa using hd : d = '\\' ∨ d = 'b') with h | h <;> subst h <;> decide
        · rw [if_neg h8] at hd
          by_cases h9 : c.toNat = 9
          · rw [if_pos h9] at hd
            rcases (by simpa using hd : d = '\\' ∨ d = 't') with h | h <;> subst h <;> decide
          · rw [if_neg h9] at hd
            by_cases h10 : c.toNat = 10
            · rw [if_pos h10] at hd
              rcases (by simpa using hd : d = '\\' ∨ d = 'n') with h | h <;> subst h <;> decide
            · rw [if_neg h10] at hd
              by_cases h12 : c.toNat = 12
              · rw [if_pos h12] at hd
                rcases (by simpa using hd : d = '\\' ∨ d = 'f') with h | h <;> subst h <;> decide
              · rw [if_neg h12] at hd
                by_cases h13 : c.toNat = 13
                · rw [if_pos h13] at hd
                  rcases (by simpa using hd : d = '\\' ∨ d = 'r') with h | h <;> subst h <;> decide
                · rw [if_neg h13] at hd
                  simp only [List.mem_cons, List.not_mem_nil, or_false] at hd
                  rcases hd with h | h | h | h | h | h
                  · subst h; decide
                  · subst h; decide
                  · subst h; decide
                  · subst h; decide
                  · subst h
                    have := hexDigitCh_toNat_range (c.toNat / 16) (by omega)
                    omega
                  · subst h
                    have := hexDigitCh_toNat_range (c.toNat % 16) (by omega)
                    omega
      · rw [if_neg hctl] at hd
        simp only [List.mem_singleton] at hd
        subst hd
        omega

theorem escList_ge32 (s : List Char) : ∀ d ∈ escList s, 32 ≤ d.toNat := by
  intro d hd
  simp only [escList, List.mem_flatMap] at hd
  obtain ⟨c, _, hdc⟩ := hd
  exact escChar_ge32 c d hdc

theorem strLit_ge32 (s : List Char) : ∀ d ∈ strLit s, 32 ≤ d.toNat := by
  intro d hd
  simp only [strLit, List.mem_cons, List.mem_append, List.mem_singleton] at hd
  rcases hd with (h | h) | (h | h)
  · subst h; decide
  · exact escList_ge32 s d h
  · subst h; decide
  · simp at h

theorem intChars_ge32 (n : Int) : ∀ d ∈ intChars n, 32 ≤ d.toNat := by
  intro d hd
  unfold intChars at hd
  by_cases hneg : n < 0
  · rw [if_pos hneg] at hd
    simp only [List.mem_cons] at hd
    rcases hd with h | h
    · subst h; decide
    · have := isDigit_toNat_bounds d (natDigits_all_digit n.natAbs d h)
      omega
  · rw [if_neg hneg] at hd
    have := isDigit_toNat_bounds d (natDigits_all_digit n.natAbs d hd)
    omega

theorem escChar_mem (c d : Char) (hd : d ∈ escChar c) :
    d = c ∨ d ∈ ['\\', 'b', 't', 'n', 'f', 'r', 'u', '0', '"'] ∨
      (∃ k, k < 16 ∧ d = hexDigitCh k) := by
  unfold escChar at hd
  by_cases hq : c = '"'
  · rw [if_pos hq] at hd
    right; left
    rcases (by simpa using hd : d = '\\' ∨ d = '"') with h | h <;> subst h <;> decide
  · rw [if_neg hq] at hd
    by_cases hb : c = '\\'
    · rw [if_pos hb] at hd
      right; left
      rcases (by simpa using hd : d = '\\' ∨ d = '\\') with h | h <;> subst h <;> decide
    · rw [if_neg hb] at hd
      by_cases hctl : c.toNat < 32
      · rw [if_pos hctl] at hd
        by_cases h8 : c.toNat = 8
        · rw [if_pos h8] at hd
          right; left
          rcases (by simpa using hd : d = '\\' ∨ d = 'b') with h | h <;> subst h <;> decide
        · rw [if_neg h8] at hd
          by_cases h9 : c.toNat = 9
          · rw [if_pos h9] at hd
            right; left
            rcases (by simpa using hd : d = '\\' ∨ d = 't') with h | h <;> subst h <;> decide
          · rw [if_neg h9] at hd
            by_cases h10 : c.toNat = 10
            · rw [if_pos h10] at hd
              right; left
              rcases (by simpa using hd : d = '\\' ∨ d = 'n') with h | h <;> subst h <;> decide
            · rw [if_neg h10] at hd
              by_cases h12 : c.toNat = 12
              · rw [if_pos h12] at hd
                right; left
                rcases (by simpa using hd : d = '\\' ∨ d = 'f') with h | h <;> subst h <;> decide
              · rw [if_neg h12] at hd
                by_cases h13 : c.toNat = 13
                · rw [if_pos h13] at hd
                  right; left
                  rcases (by simpa using hd : d = '\\' ∨ d = 'r') with h | h <;> subst h <;> decide
                · rw [if_neg h13] at hd
                  simp only [List.mem_cons, List.not_mem_nil, or_false] at hd
                  rcases hd with h | h | h | h | h | h
                  · right; left; subst h; decide
                  · right; left; subst h; decide
                  · right; left; subst h; decide
                  · right; left; subst h; decide
                  · right; right; exact ⟨c.toNat / 16, by omega, h⟩
                  · right; right; exact ⟨c.toNat % 16, by omega, h⟩
      · rw [if_neg hctl] at hd
        simp only [List.mem_singleton] at hd
        left; exact hd

theorem space_not_mem_escChar (c : Char) (hc : ¬ c = ' ') : ¬ ' ' ∈ escChar c := by
  intro hmem
  rcases escChar_mem c ' ' hmem with h | h | ⟨k, hk, h⟩
  · exact hc h.symm
  · simp at h
  · have := hexDigitCh_toNat_range k hk
    rw [← h] at this
    exact absurd this (by decide)

theorem count_space_escChar (c : Char) : (escChar c).count ' ' = [c].count ' ' := by
  by_cases hsp : c = ' '
  · subst hsp; rfl
  · rw [List.count_eq_zero.mpr (space_not_mem_escChar c hsp), List.count_eq_zero.mpr]
    simp only [List.mem_singleton]
    intro h
    exact hsp h.symm

theorem count_space_escList (s : List Char) : (escList s).count ' ' = s.count ' ' := by
  induction s with
  | nil => rfl
  | cons c cs ih =>
    rw [show escList (c :: cs) = escChar c ++ escList cs from by simp [escList]]
    rw [List.count_append, ih, count_space_escChar]
    rw [show ([c] : List Char) = [c] ++ [] from by simp, List.count_append]
    rw [show (c :: cs : List Char) = [c] ++ cs from by simp, List.count_append]
    simp

theorem count_space_strLit (s : List Char) : (strLit s).count ' ' = s.count ' ' := by
  rw [show strLit s = '"' :: (escList s ++ ['"']) from by simp [strLit]]
  rw [List.count_cons, List.count_append, count_space_escList]
  simp

theorem count_space_intChars (n : Int) : (intChars n).count ' ' = 0 := by
  rw [List.count_eq_zero]
  intro hmem
  unfold intChars at hmem
  by_cases hneg : n < 0
  · rw [if_pos hneg] at hmem
    simp only [List.mem_cons] at hmem
    rcases hmem with h | h
    · exact absurd h (by decide)
    · have := isDigit_toNat_bounds ' ' (natDigits_all_digit n.natAbs ' ' h)
      exact absurd this (by decide)
  · rw [if_neg hneg] at hmem
    have := isDigit_toNat_bounds ' ' (natDigits_all_digit n.natAbs ' ' hmem)
    exact absurd this (by decide)

theorem count_space_optIntJson (o : Option Int) :
    (serialize (optIntJson o)).count ' ' = 0 := by
  cases o with
  | none => rfl
  | some v => exact count_space_intChars v

theorem count_space_entry (now_ns : Nat) (m : Metric) :
    (serialize (metricEntry now_ns m)).count ' ' = wsOf m := by
  rw [show serialize (metricEntry now_ns m) =
    lbrace :: (serializeMembers [(("host").data, JValue.jstr m.host),
           (("key").data, JValue.jstr m.key),
           (("value").data, JValue.jstr m.value.str),
           (("clock").data, JValue.jint (resolveClock now_ns m).1),
           (("ns").data, optIntJson (resolveClock now_ns m).2)] ++ [rbrace]) from rfl]
  simp only [serializeMembers]
  rw [show serialize (JValue.jstr m.host) = strLit m.host from rfl,
    show serialize (JValue.jstr m.key) = strLit m.key from rfl,
    show serialize (JValue.jstr m.value.str) = strLit m.value.str from rfl,
    show serialize (JValue.jint (resolveClock now_ns m).1) =
      intChars (resolveClock now_ns m).1 from rfl]
  simp only [List.count_cons, List.count_append, count_space_strLit,
    count_space_intChars, count_space_optIntJson]
  simp [wsOf, show ¬ (rbrace = ' ') from by decide, show ¬ (lbrace = ' ') from by decide]
  omega

theorem count_space_elems (now_ns : Nat) (ms : List Metric) :
    (serializeElems (ms.map (metricEntry now_ns))).count ' ' = (ms.map wsOf).sum := by
  induction ms with
  | nil => rfl
  | cons m ms ih =>
    cases ms with
    | nil =>
      show (serializeElems [metricEntry now_ns m]).count ' ' = _
      rw [show serializeElems [metricEntry now_ns m] = serialize (metricEntry now_ns m) from rfl]
      simp [count_space_entry]
    | cons m2 ms' =>
      show (serialize (metricEntry now_ns m) ++
        ',' :: serializeElems ((m2 :: ms').map (metricEntry now_ns))).count ' ' = _
      rw [List.count_append, List.count_cons, count_space_entry, ih]
      simp

theorem count_space_body (now_ns : Nat) (ms : List Metric) :
    (jsonData now_ns ms).count ' ' = 1 + (ms.map wsOf).sum := by
  rw [show jsonData now_ns ms =
    lbrace :: (strLit (("request").data) ++ ':' :: (strLit (("sender data").data) ++
      ',' :: (strLit (("data").data) ++ ':' ::
        ('[' :: (serializeElems ((buildEntries now_ns ms).1) ++ [']']) ++ [rbrace]))))
    from rfl]
  rw [buildEntries_fst]
  simp only [List.count_cons, List.count_append, count_space_strLit, count_space_elems]
  simp [show ¬ (rbrace = ' ') from by decide, show ¬ (lbrace = ' ') from by decide]

theorem optIntJson_ge32 (o : Option Int) :
    ∀ d ∈ serialize (optIntJson o), 32 ≤ d.toNat := by
  cases o with
  | none =>
    intro d hd
    rw [show serialize (optIntJson none) = ['n', 'u', 'l', 'l'] from rfl] at hd
    rcases (by simpa using hd : d = 'n' ∨ d = 'u' ∨ d = 'l') with h | h | h <;>
      subst h <;> decide
  | some v => exact intChars_ge32 v

theorem append_ge32 {a b : List Char} (ha : ∀ d ∈ a, 32 ≤ d.toNat)
    (hb : ∀ d ∈ b, 32 ≤ d.toNat) : ∀ d ∈ a ++ b, 32 ≤ d.toNat := by
  intro d hd
  rcases List.mem_append.mp hd with h | h
  · exact ha d h
  · exact hb d h

theorem cons_ge32 {c : Char} {l : List Char} (hc : 32 ≤ c.toNat)
    (hl : ∀ d ∈ l, 32 ≤ d.toNat) : ∀ d ∈ c :: l, 32 ≤ d.toNat := by
  intro d hd
  rcases List.mem_cons.mp hd with h | h
  · subst h; exact hc
  · exact hl d h

theorem nil_ge32 : ∀ d ∈ ([] : List Char), 32 ≤ d.toNat := by
  intro d hd
  exact absurd hd (List.not_mem_nil d)

theorem entry_ge32 (now_ns : Nat) (m : Metric) :
    ∀ d ∈ serialize (metricEntry now_ns m), 32 ≤ d.toNat := by
  show ∀ d ∈ lbrace :: (serializeMembers [(("host").data, JValue.jstr m.host),
           (("key").data, JValue.jstr m.key),
           (("value").data, JValue.jstr m.value.str),
           (("clock").data, JValue.jint (resolveClock now_ns m).1),
           (("ns").data, optIntJson (resolveClock now_ns m).2)] ++ [rbrace]), 32 ≤ d.toNat
  simp only [serializeMembers]
  repeat' first
    | exact strLit_ge32 _
    | exact intChars_ge32 _
    | exact optIntJson_ge32 _
    | exact nil_ge32
    | exact cons_ge32 (by decide) nil_ge32
    | apply append_ge32
    | apply cons_ge32 (by decide)

theorem elems_ge32 (now_ns : Nat) (ms : List Metric) :
    ∀ d ∈ serializeElems (ms.map (metricEntry now_ns)), 32 ≤ d.toNat := by
  induction ms with
  | nil => intro d hd; simp [serializeElems] at hd
  | cons m ms ih =>
    cases ms with
    | nil =>
      intro d hd
      rw [show serializeElems ([m].map (metricEntry now_ns)) =
        serialize (metricEntry now_ns m) from rfl] at hd
      exact entry_ge32 now_ns m d hd
    | cons m2 msr =>
      intro d hd
      rw [show serializeElems ((m :: m2 :: msr).map (metricEntry now_ns)) =
        serialize (metricEntry now_ns m) ++
          ',' :: serializeElems ((m2 :: msr).map (metricEntry now_ns)) from rfl] at hd
      simp only [List.mem_append, List.mem_cons] at hd
      rcases hd with hd | hd | hd
      · exact entry_ge32 now_ns m d hd
      · subst hd; decide
      · exact ih d hd

theorem body_ge32 (now_ns : Nat) (ms : List Metric) :
    ∀ d ∈ jsonData now_ns ms, 32 ≤ d.toNat := by
  show ∀ d ∈ lbrace :: (strLit (("request").data) ++ ':' :: (strLit (("sender data").data) ++
      ',' :: (strLit (("data").data) ++ ':' ::
        ('[' :: (serializeElems ((buildEntries now_ns ms).1) ++ [']']) ++ [rbrace])))), 32 ≤ d.toNat
  rw [buildEntries_fst]
  repeat' first
    | exact strLit_ge32 _
    | exact elems_ge32 now_ns ms
    | exact nil_ge32
    | exact cons_ge32 (by decide) nil_ge32
    | apply append_ge32
    | apply cons_ge32 (by decide)

theorem count_ctl_body (now_ns : Nat) (ms : List Metric) (w : Char) (hw : w.toNat < 32) :
    (jsonData now_ns ms).count w = 0 := by
  rw [List.count_eq_zero]
  intro hmem
  have := body_ge32 now_ns ms w hmem
  omega

/-- C6: for every batch (including the empty one), the reference JSON
parser inverts the produced body to an object whose `request` field is
`"sender data"` and whose `data` array lists, in order and one per metric,
the object mapping `host`/`key` from the metric and `value` to the string
form of its value; and the body carries no whitespace besides the literal
spaces of the data itself (one in `"sender data"` plus those inside
host/key/value strings) — no tabs, newlines or carriage returns at all. -/
theorem C6_payload_roundtrip_compact (ms : List Metric) (now_ns : Nat) :
    parseJson (jsonData now_ns ms) =
      some (.jobj [(("request").data, .jstr ("sender data").data),
                   (("data").data, .jarr ((buildEntries now_ns ms).1))]) ∧
    (buildEntries now_ns ms).1 =
      ms.map (fun m => .jobj [(("host").data, .jstr m.host),
                              (("key").data, .jstr m.key),
                              (("value").data, .jstr m.value.str),
                              (("clock").data, .jint (resolveClock now_ns m).1),
                              (("ns").data, optIntJson (resolveClock now_ns m).2)]) ∧
    (buildEntries now_ns ms).1.length = ms.length ∧
    (jsonData now_ns ms).count ' ' = 1 + (ms.map wsOf).sum ∧
    (jsonData now_ns ms).count '\t' = 0 ∧
    (jsonData now_ns ms).count '\n' = 0 ∧
    (jsonData now_ns ms).count '\r' = 0 := by
  refine ⟨parseJson_jsonData now_ns ms, buildEntries_fst now_ns ms, ?_,
    count_space_body now_ns ms, count_ctl_body _ _ _ (by decide),
    count_ctl_body _ _ _ (by decide), count_ctl_body _ _ _ (by decide)⟩
  rw [buildEntries_fst]
  simp

end Zbxsend
